import Mathlib

/-!
Verification development for the Nand2Tetris-Life assembler
(`src/assembler.py`).  The assembler's data model and algorithms are
shallowly embedded: Python strings become `List Char` (the sources are
whitespace-free after normalization, which none of the verified claims
touch), Python's arbitrary-precision integers become `Int`, Python
dictionaries become association lists, exceptions become `Except`, and
the recursive expression evaluator — whose recursion is not structural
because parenthesis substitution can lengthen the text — takes an
explicit fuel argument (fuel exhaustion is a distinct outcome that no
proved statement ever hits).
-/

namespace Assembler

/-! ## Character classes (assembler.py lines 81-85) -/

def SYMBOLCHARS : List Char :=
  "abcdefghijklmnopqrstuvwxyzABCDEFGHIJKLMNOPQRSTUVWXYZ0123456789_.$:".toList

def DECIMALCHARS : List Char := "0123456789".toList

def OPERATORS : List Char := "-+/*%&|~<>".toList

def UNARYOPERATORS : List Char := "-+~".toList

def QUOTES : List Char := ['"', '\'']

/-! ## Python `int(s, 0)` (used by `constant`, line 340)

`int(text, 0)` accepts an optional sign, then a `0x`/`0o`/`0b` prefixed
numeral or a decimal numeral; single underscores may separate digits
(also directly after a base prefix); a multi-digit decimal numeral must
not start with `0`. -/

/-- Digit value of `c` in `base` (input text is lowercased first). -/
def digitVal (base : Nat) (c : Char) : Option Nat :=
  let v : Option Nat :=
    if '0' ≤ c ∧ c ≤ '9' then some (c.toNat - '0'.toNat)
    else if 'a' ≤ c ∧ c ≤ 'f' then some (c.toNat - 'a'.toNat + 10)
    else none
  match v with
  | some d => if d < base then some d else none
  | none => none

/-- Underscore placement check for Python numerals: an underscore may
only appear after a digit (or, when `allow` starts as `true`, directly
after the base prefix) and must be followed by another character that is
not an underscore. -/
def underscoresOk : Bool → List Char → Bool
  | _, [] => true
  | allow, '_' :: rest => allow && !rest.isEmpty && underscoresOk false rest
  | _, _ :: rest => underscoresOk true rest

/-- Value of an underscore-free digit string in `base`; `none` when a
character is not a digit of the base or the string is empty. -/
def digitsVal (base : Nat) (s : List Char) : Option Nat :=
  if s.isEmpty then none
  else if s.all (fun c => (digitVal base c).isSome) then
    some (s.foldl (fun acc c => acc * base + (digitVal base c).getD 0) 0)
  else none

/-- Magnitude part of Python `int(s, 0)` after the sign is stripped. -/
def pyIntMag : List Char → Option Nat
  | '0' :: 'x' :: ds =>
    if underscoresOk true ds then digitsVal 16 (ds.filter (· ≠ '_')) else none
  | '0' :: 'o' :: ds =>
    if underscoresOk true ds then digitsVal 8 (ds.filter (· ≠ '_')) else none
  | '0' :: 'b' :: ds =>
    if underscoresOk true ds then digitsVal 2 (ds.filter (· ≠ '_')) else none
  | s =>
    if underscoresOk false s then
      match s with
      | '0' :: _ =>
        -- base-0 decimal numerals may not have leading zeros: "0", "00",
        -- "0_0" are 0, anything else starting with '0' is invalid
        if (s.filter (· ≠ '_')).all (· = '0') then some 0 else none
      | _ => digitsVal 10 (s.filter (· ≠ '_'))
    else none

/-- Python `int(s, 0)` on whitespace-free, already-lowercased text. -/
def pyIntBase0 : List Char → Option Int
  | '+' :: rest => (pyIntMag rest).map (fun n => (n : Int))
  | '-' :: rest => (pyIntMag rest).map (fun n => -(n : Int))
  | s => (pyIntMag s).map (fun n => (n : Int))

/-! ## `is_symbol`, `constant`, `is_constant` (lines 315-358) -/

/-- `is_symbol` (line 315): nonempty, not starting with a digit or `-`,
all characters in the symbol alphabet. -/
def is_symbolL : List Char → Bool
  | [] => false
  | c0 :: rest =>
    if DECIMALCHARS.contains c0 then false
    else if c0 = '-' then false
    else (c0 :: rest).all (SYMBOLCHARS.contains ·)

def is_symbol (s : String) : Bool := is_symbolL s.toList

/-- `constant` (line 332): `''` is 0; a 3-character quoted literal is the
character's code point; otherwise `int(s.lower(), 0)`, retrying without
the leading character when it is `'0'`; `Invalid constant` otherwise. -/
def constantF : List Char → Except String Int
  | [] => .ok 0
  | c0 :: rest =>
    let s := c0 :: rest
    if s.length = 3 ∧ QUOTES.contains c0 ∧ s.getD 2 ' ' = c0 then
      .ok ((s.getD 1 ' ').toNat : Int)
    else
      match pyIntBase0 (s.map Char.toLower) with
      | some v => .ok v
      | none =>
        if c0 = '0' then constantF rest
        else .error ("Invalid constant [" ++ String.mk s ++ "]")

/-- `is_constant` (line 349): `''` is not a constant; otherwise `constant`
must not raise. -/
def is_constantL (s : List Char) : Bool :=
  if s.isEmpty then false else (constantF s).isOk

/-! ## Expression evaluator (`evaluate`, lines 365-475) -/

/-- Exceptions `evaluate` can raise: `ZeroDivisionError` is distinguished
because two call sites catch it separately; every other exception carries
its message.  `fuelOut` is a modeling artifact of the fuel-indexed
embedding and corresponds to no Python behavior. -/
inductive EvalErr where
  | zeroDiv : EvalErr
  | fuelOut : EvalErr
  | exn : String → EvalErr
deriving Repr, DecidableEq

/-- Python `s.rfind(c)`: index of the last occurrence. -/
def rfindC : List Char → Char → Option Nat
  | [], _ => none
  | a :: rest, c =>
    match rfindC rest c with
    | some i => some (i + 1)
    | none => if a = c then some 0 else none

/-- Python `s.find(c, start)`: index of the first occurrence at or after
`start`. -/
def findFromC (s : List Char) (c : Char) (start : Nat) : Option Nat :=
  ((s.drop start).findIdx? (· = c)).map (· + start)

/-- `max([s.rfind(c) for c in OPERATORS])` (line 398): the greatest index
at which any operator character occurs. -/
def lastOpIdx : List Char → Option Nat
  | [] => none
  | a :: rest =>
    match lastOpIdx rest with
    | some i => some (i + 1)
    | none => if OPERATORS.contains a then some 0 else none

/-- Unary `-`, `+`, `~` (lines 418-427); Python `~u = -u-1`. -/
def applyUnary (c : Char) (u : Int) : Except EvalErr Int :=
  if c = '-' then .ok (-u)
  else if c = '+' then .ok u
  else if c = '~' then .ok (-u - 1)
  else .error (.exn "unreachable")

/-- Binary operators (lines 434-464).  Python `//` and `%` are floor
division and floor modulus; `&`/`|` are two's-complement bitwise ops;
shifts reject negative counts with `ValueError`. -/
def applyBin (c : Char) (p1 p2 : Int) : Except EvalErr Int :=
  if c = '+' then .ok (p1 + p2)
  else if c = '-' then .ok (p1 - p2)
  else if c = '*' then .ok (p1 * p2)
  else if c = '/' then
    if p2 = 0 then .error .zeroDiv else .ok (p1.fdiv p2)
  else if c = '%' then
    if p2 = 0 then .error .zeroDiv else .ok (p1.fmod p2)
  else if c = '&' then .ok (Int.land p1 p2)
  else if c = '|' then .ok (Int.lor p1 p2)
  else if c = '<' then
    if p2 < 0 then .error (.exn "negative shift count")
    else .ok (p1 * 2 ^ p2.toNat)
  else if c = '>' then
    if p2 < 0 then .error (.exn "negative shift count")
    else .ok (p1.fdiv (2 ^ p2.toNat))
  else .error (.exn ("Unimplemented expression operator [" ++ String.mk [c] ++ "]"))

/-- The symbol table: Python dict as an insertion-ordered association
list with distinct keys. -/
abbrev SymTable := List (String × Int)

def symContains (m : SymTable) (k : String) : Bool := m.any (fun p => p.1 == k)

def symLookup (m : SymTable) (k : String) : Option Int :=
  (m.find? (fun p => p.1 == k)).map (·.2)

/-- `symbols[k] = v` on a dict: replace the binding if the key exists,
else append. -/
def symInsert (m : SymTable) (k : String) (v : Int) : SymTable :=
  if symContains m k then m.map (fun p => if p.1 == k then (k, v) else p)
  else m ++ [(k, v)]

/-- `evaluate(s, checkonly)` (line 365) over the symbol table `tbl`
(the Python global `symbols`), with explicit fuel for the non-structural
recursion.  Empty text errors; the rightmost-starting parenthetical is
repeatedly replaced by the decimal text of its value (modeled by
re-entering the evaluator on the rewritten text, which is exactly the
loop's behavior since the post-loop code runs only once no `(` remains);
then the text splits at the last operator occurrence, stepping the split
point back one place when it is a unary operator directly preceded by
another operator; a unary operator at index 0 applies to the rest; with
no operator the text is a constant, a symbol, or an error (`checkonly`
substitutes 1 for unknown symbols). -/
def evaluateF (tbl : SymTable) : Nat → List Char → Bool → Except EvalErr Int
  | 0, _, _ => .error .fuelOut
  | fuel + 1, s, chk =>
    if s.isEmpty then
      .error (.exn "Unary negation can only be used as first element in an expression or parenthetical expression")
    else
      match rfindC s '(' with
      | some ploc =>
        match findFromC s ')' ploc with
        | none => .error (.exn "No matching ) in expression")
        | some pend => do
          let pval ← evaluateF tbl fuel ((s.take pend).drop (ploc + 1)) chk
          evaluateF tbl fuel (s.take ploc ++ (toString pval).toList ++ s.drop (pend + 1)) chk
      | none =>
        if s.contains ')' then .error (.exn "Dangling ) in expression")
        else if s.getLast? = some '\\' then
          .error (.exn "Dangling \\ in expression (probably in last line of file)")
        else
          let binAt : Nat → Except EvalErr Int := fun i => do
            let p1 ← evaluateF tbl fuel (s.take i) chk
            let p2 ← evaluateF tbl fuel (s.drop (i + 1)) chk
            applyBin (s.getD i ' ') p1 p2
          match lastOpIdx s with
          | some oploc =>
            if UNARYOPERATORS.contains (s.getD oploc ' ') then
              if 0 < oploc then
                binAt (if OPERATORS.contains (s.getD (oploc - 1) ' ') then oploc - 1 else oploc)
              else do
                let uval ← evaluateF tbl fuel (s.drop 1) chk
                applyUnary (s.getD 0 ' ') uval
            else binAt oploc
          | none =>
            match constantF s with
            | .ok v => .ok v
            | .error _ =>
              if is_symbolL s then
                match symLookup tbl (String.mk s) with
                | some v => .ok v
                | none =>
                  if chk then .ok 1
                  else .error (.exn ("Undefined symbol [" ++ String.mk s ++ "] in expression"))
              else .error (.exn ("Cannot parse expression [" ++ String.mk s ++ "]"))

/-- `is_expression` (line 480): `evaluate` in check-only mode raised no
exception. -/
def is_expressionF (tbl : SymTable) (fuel : Nat) (s : List Char) : Bool :=
  (evaluateF tbl fuel s true).isOk

/-! ## Limits and encoding tables (lines 76-311) -/

def MAXRAM : Int := 16384
def MAXROM : Int := 32768

def CINSTR : Int := 0b1110000000000000

def JMPS : SymTable :=
  [("NULL", 0b000), ("JGT", 0b001), ("JEQ", 0b010), ("JGE", 0b011),
   ("JLT", 0b100), ("JNE", 0b101), ("JLE", 0b110), ("JMP", 0b111)]

def DESTS : SymTable :=
  [("", 0b000000), ("NULL", 0b000000), ("M", 0b001000), ("D", 0b010000),
   ("MD", 0b011000), ("A", 0b100000), ("AM", 0b101000), ("AD", 0b110000),
   ("AMD", 0b111000), ("DM", 0b011000), ("MA", 0b101000), ("DA", 0b110000),
   ("ADM", 0b111000), ("MAD", 0b111000), ("MDA", 0b111000), ("DAM", 0b111000),
   ("DMA", 0b111000)]

def COMPS : SymTable :=
  [("0", 0b0101010000000), ("1", 0b0111111000000), ("-1", 0b0111010000000),
   ("D", 0b0001100000000), ("A", 0b0110000000000), ("!D", 0b0001101000000),
   ("!A", 0b0110001000000), ("-D", 0b0001111000000), ("-A", 0b0110011000000),
   ("D+1", 0b0011111000000), ("A+1", 0b0110111000000), ("D-1", 0b0001110000000),
   ("A-1", 0b0110010000000), ("D+A", 0b0000010000000), ("D-A", 0b0010011000000),
   ("A-D", 0b0000111000000), ("D&A", 0b0000000000000), ("D|A", 0b0010101000000),
   ("A+D", 0b0000010000000), ("A&D", 0b0000000000000), ("A|D", 0b0010101000000),
   ("M", 0b1110000000000), ("!M", 0b1110001000000), ("-M", 0b1110011000000),
   ("M+1", 0b1110111000000), ("M-1", 0b1110010000000), ("D+M", 0b1000010000000),
   ("D-M", 0b1010011000000), ("M-D", 0b1000111000000), ("D&M", 0b1000000000000),
   ("D|M", 0b1010101000000), ("M+D", 0b1000010000000), ("M&D", 0b1000000000000),
   ("M|D", 0b1010101000000), ("~D", 0b0001101000000), ("~A", 0b0110001000000),
   ("~M", 0b1110001000000), ("-2", 0b0111110000000), ("D^A", 0b0000001000000),
   ("A^D", 0b0000001000000), ("D_A", 0b0010100000000), ("A_D", 0b0010100000000),
   ("D^M", 0b1000001000000), ("M^D", 0b1000001000000), ("D_M", 0b1010100000000),
   ("M_D", 0b1010100000000), ("0XFFFF", 0b0111010000000), ("0X0000", 0b0101010000000),
   ("0X0001", 0b0111111000000)]

def XOPS : SymTable :=
  [("0", 0b0100000000000), ("-1", 0b0110000000000), ("D", 0b0000000000000),
   ("!D", 0b0010000000000), ("~D", 0b0010000000000)]

def YOPS : SymTable :=
  [("0", 0b0001000000000), ("-1", 0b0001100000000), ("D", 0b0000000000000),
   ("!D", 0b0000100000000), ("~D", 0b0000100000000), ("M", 0b1000000000000),
   ("!M", 0b1000100000000), ("~M", 0b1000100000000)]

def FUNCS : SymTable := [("&", 0b0000000000000), ("+", 0b0000010000000)]

def NOTALU : Int := 0b0000001000000
def ALU : Int := 0b0000000000000

/-- The predefined constants the global symbol table starts with
(lines 89-144). -/
def predefSymbols : SymTable :=
  [("R0", 0), ("R1", 1), ("R2", 2), ("R3", 3), ("R4", 4), ("R5", 5),
   ("R6", 6), ("R7", 7), ("R8", 8), ("R9", 9), ("R10", 10), ("R11", 11),
   ("R12", 12), ("R13", 13), ("R14", 14), ("R15", 15),
   ("SP", 0), ("LCL", 1), ("ARG", 2), ("THIS", 3), ("THAT", 4),
   ("SCREEN", 16384), ("KBD", 24576),
   ("KBD_SPACE", 32), ("KBD_NEWLINE", 128), ("KBD_BACKSPACE", 129),
   ("KBD_LEFTARROW", 130), ("KBD_UPARROW", 131), ("KBD_RIGHTARROW", 132),
   ("KBD_DOWNARROW", 133), ("KBD_HOME", 134), ("KBD_END", 135),
   ("KBD_PAGEUP", 136), ("KBD_PAGEDOWN", 137), ("KBD_INSERT", 138),
   ("KBD_DELETE", 139), ("KBD_ESC", 140), ("KBD_F1", 141), ("KBD_F2", 142),
   ("KBD_F3", 143), ("KBD_F4", 144), ("KBD_F5", 145), ("KBD_F6", 146),
   ("KBD_F7", 147), ("KBD_F8", 148), ("KBD_F9", 149), ("KBD_F10", 150),
   ("KBD_F11", 151), ("KBD_F12", 152)]

/-! ## Operations (lines 506-610)

The source stores each operation as a flexible string-keyed dictionary;
the embedding mirrors that with a record of optional fields, where a
`none`/`false` field models an absent key. -/

/-- A source line triple `(line_number, line, original line)`. -/
structure Line where
  num : Int
  text : String
  orig : String
deriving Repr, DecidableEq

/-- Operation kinds: `@`-op, C-op, extended (`:=`) K-op, label, variable
declaration, constant (data) declaration, error. -/
inductive CType where
  | A | C | K | L | V | D | E
deriving Repr, DecidableEq

structure Op where
  cType : CType
  symbol : Option String := none
  constant : Option String := none
  expression : Option String := none
  dest : Option String := none
  comp : Option String := none
  jump : Option String := none
  init : Option (List String) := none
  -- `alias` is a Lean keyword, so the presence of the Python `'alias'`
  -- dict key is modeled by the field `aliasKey`
  aliasKey : Bool := false
  error : Option String := none
  warning : Option String := none
  code : Option Int := none
  line : Line := ⟨0, "", ""⟩
deriving Repr, DecidableEq

/-- Python `s.upper()` (ASCII text). -/
def upperStr (s : String) : String := String.mk (s.toList.map Char.toUpper)

/-- Python `s.split(c, 1)`: text before the first `c`, text after it
(call sites establish that `c` occurs). -/
def splitFirst (c : Char) : List Char → List Char × List Char
  | [] => ([], [])
  | a :: rest =>
    if a = c then ([], rest)
    else
      let (u, v) := splitFirst c rest
      (a :: u, v)

/-- Python `s.split(ab)` for a two-character separator (used for `:=`). -/
def splitSub2 (a b : Char) : List Char → List (List Char)
  | [] => [[]]
  | [c] => [[c]]
  | c :: d :: rest =>
    if c = a ∧ d = b then [] :: splitSub2 a b rest
    else
      match splitSub2 a b (d :: rest) with
      | [] => [[c]]
      | p :: ps => (c :: p) :: ps

/-- Python `ab in s` for a two-character substring. -/
def containsSub2 (a b : Char) (s : List Char) : Bool :=
  (splitSub2 a b s).length ≠ 1

/-- The uncaught-exception text of an `EvalErr`, for the places where the
source lets `evaluate`'s exception propagate. -/
def evalErrText : EvalErr → String
  | .zeroDiv => "ZeroDivisionError: integer division or modulo by zero"
  | .fuelOut => "fuel exhausted (modeling artifact)"
  | .exn m => m

/-- `operation(line)` (line 517): classify one normalized line.  `tbl` is
the global symbol table, which at the parse stage holds exactly the
predefined symbols.  The result is `Except` because two paths let a
Python exception escape: the `$name(size)=values` branch calls
`evaluate(vsize)` with no handler, and a `$name(size)=a=b` line makes the
two-element unpacking of `vinit.split('=')` fail.  The
`$name(*)=file` branch consults an external bitmap collaborator
(`PIL.Image.open` + `import_image`); file access is outside the pure
model, so that branch produces the error operation the source produces
when the file is missing or unreadable (no verified claim exercises it). -/
def operationF (fuel : Nat) (tbl : SymTable) (line : Line) : Except String Op :=
  match line.text.toList with
  | [] => .error "IndexError: string index out of range"
  | '@' :: o =>
    if is_symbolL o then .ok {cType := .A, symbol := some (String.mk o), line := line}
    else if is_constantL o then .ok {cType := .A, constant := some (String.mk o), line := line}
    else if is_expressionF tbl fuel o then .ok {cType := .A, expression := some (String.mk o), line := line}
    else .ok {cType := .A, line := line, error := some "@ Values is not a symbol, constant or expression"}
  | '(' :: o =>
    if o.getLast? = some ')' then
      .ok {cType := .L, symbol := some (String.mk o.dropLast), line := line}
    else .ok {cType := .E, line := line, error := some "Label definition does not end in ')'"}
  | '$' :: o =>
    if o.contains '(' then
      let (vname0, vsize0) := splitFirst '(' o
      let vname := if vname0 = ['_'] then "__Anon__".toList ++ (toString line.num).toList else vname0
      if !vsize0.contains ')' then
        .ok {cType := .E, line := line, error := some "Variable definition is missing closing ')'"}
      else
        let (vsize, vinit) := splitFirst ')' vsize0
        if vsize = ['*'] then
          let fname := match vinit.splitOn '=' with
                       | [_, f] => f
                       | _ => vinit
          .ok {cType := .E, line := line,
               error := some ("File [" ++ String.mk fname ++ "] not found, or not image")}
        else if vinit.contains '=' then
          match vinit.splitOn '=' with
          | [_, v1] =>
            let vlist := v1.splitOn ','
            match evaluateF tbl fuel vsize false with
            | .error e => .error (evalErrText e)
            | .ok evsize =>
              if (vlist.length : Int) ≠ evsize then
                .ok {cType := .E, line := line,
                     error := some ("Variable size (" ++ toString evsize ++
                       ") does not match number of Values provided (" ++
                       toString vlist.length ++ ")")}
              else
                .ok {cType := .V, symbol := some (String.mk vname),
                     expression := some (String.mk vsize),
                     init := some (vlist.map String.mk), line := line}
          | _ => .error "ValueError: too many values to unpack"
        else
          .ok {cType := .V, symbol := some (String.mk vname),
               expression := some (String.mk vsize), init := some [], line := line}
    else if o.contains '=' then
      let (vname, vinit) := splitFirst '=' o
      let vlist := vinit.splitOn ','
      if vlist.length ≠ 1 then
        .ok {cType := .E, line := line,
             error := some ("Variable size (1) does not match number of Values provided (" ++
               toString vlist.length ++ ")")}
      else
        .ok {cType := .V, symbol := some (String.mk vname), expression := some "1",
             init := some (vlist.map String.mk), line := line}
    else if o.contains '@' then
      let (vname, vinit) := splitFirst '@' o
      let vlist := vinit.splitOn ','
      if vlist.length ≠ 1 then
        .ok {cType := .E, line := line,
             error := some "Variable alias can only one initializer value"}
      else
        .ok {cType := .V, symbol := some (String.mk vname),
             expression := some (String.mk (vlist.getD 0 [])), aliasKey := true, line := line}
    else
      .ok {cType := .V, symbol := some (String.mk o), expression := some "1", line := line}
  | '#' :: o =>
    if o.contains '=' then
      let (vname, vinit) := splitFirst '=' o
      .ok {cType := .D, symbol := some (String.mk vname),
           expression := some (String.mk vinit), line := line}
    else .ok {cType := .E, line := line, error := some "Constant definition does contain a Values"}
  | text =>
    let olist := text.splitOn ';'
    if olist.length > 2 then
      .ok {cType := .E, line := line, error := some "Multiple ;'s in operation"}
    else
      let jmp := if olist.length = 2 then String.mk ((olist.getD 1 []).map Char.toUpper) else "NULL"
      let head := olist.getD 0 []
      if containsSub2 ':' '=' head then
        match splitSub2 ':' '=' (head.map Char.toUpper) with
        | [d, c] =>
          .ok {cType := .K, dest := some (String.mk d), comp := some (String.mk c),
               jump := some jmp, line := line}
        | _ => .ok {cType := .E, line := line, error := some "Multiple :='s in operation"}
      else
        match (head.map Char.toUpper).splitOn '=' with
        | [c] =>
          .ok {cType := .C, dest := some "NULL", comp := some (String.mk c),
               jump := some jmp, line := line}
        | [d, c] =>
          .ok {cType := .C, dest := some (String.mk d), comp := some (String.mk c),
               jump := some jmp, line := line}
        | _ => .ok {cType := .E, line := line, error := some "Multiple ='s in operation"}

/-! ## Assembler state and the three symbol-table passes (lines 801-982)

The Python globals mutated by `avengers_assemble` — the symbol table, the
five category lists, the case-insensitivity list, the RAM cursor and the
program counter — are gathered into one state record threaded through the
passes. -/

structure Asm where
  symbols : SymTable := predefSymbols
  addressLabels : List String := []
  declaredValues : List String := []
  declaredVariables : List String := []
  implicitVariables : List String := []
  ucaseSymbols : List String := []
  ram : Int := 16
  pc : Int := 0
deriving Repr, DecidableEq

/-- Each pass walks the operations in order, threading the state and
attaching errors to the operations themselves. -/
def runPass (step : Asm → Op → Op × Asm) : List Op → Asm → List Op × Asm
  | [], st => ([], st)
  | o :: rest, st =>
    let (o1, st1) := step st o
    let (os, st2) := runPass step rest st1
    (o1 :: os, st2)

/-- Pass 1 (lines 883-903): labels get the current `pc`; `A` and `C`
operations advance `pc` by one.  (Note the source advances `pc` for
`cType` `'A'` and `'C'` only — not for `'K'`.) -/
def pass1Step (st : Asm) (o : Op) : Op × Asm :=
  match o.cType with
  | .L =>
    let sym := o.symbol.getD ""
    if sym = "" then ({o with error := some "Empty symbol"}, st)
    else if !is_symbol sym then ({o with error := some "Badly formed symbol"}, st)
    else if symContains st.symbols sym then ({o with error := some "Symbol previously defined"}, st)
    else if st.ucaseSymbols.contains (upperStr sym) then
      ({o with error := some "Symbol previously defined (case-insensitive)"}, st)
    else
      (o, {st with symbols := symInsert st.symbols sym st.pc,
                   addressLabels := st.addressLabels ++ [sym],
                   ucaseSymbols := st.ucaseSymbols ++ [upperStr sym]})
  | .A => (o, {st with pc := st.pc + 1})
  | .C => (o, {st with pc := st.pc + 1})
  | _ => (o, st)

def pass1 (ops : List Op) (st : Asm) : List Op × Asm := runPass pass1Step ops st

/-- Pass 2 (lines 913-951): `#` constants and `$` variables.  After the
naming checks, the declaration's expression is evaluated; an evaluation
failure attaches an error but still binds the symbol using the dummy
value 1.  Constants and aliases bind to the value; plain variables bind
to the RAM cursor, which advances by the value, erroring past
`MAXRAM`. -/
def pass2Step (fuel : Nat) (st : Asm) (o : Op) : Op × Asm :=
  if o.cType = .V ∨ o.cType = .D then
    match o.symbol with
    | none => (o, st)
    | some sym =>
      if sym = "" then ({o with error := some "Empty symbol"}, st)
      else if is_constantL sym.toList then
        ({o with error := some "Cannot define a constant as a symbol"}, st)
      else if !is_symbol sym then ({o with error := some "Badly formed symbol"}, st)
      else if symContains st.symbols sym then ({o with error := some "Symbol previously defined"}, st)
      else if st.ucaseSymbols.contains (upperStr sym) then
        ({o with error := some "Symbol previously defined (case-insensitive)"}, st)
      else
        let er := evaluateF st.symbols fuel (o.expression.getD "").toList false
        let cv : Int := match er with | .ok v => v | .error _ => 1
        let o1 : Op := match er with
          | .ok _ => o
          | .error .zeroDiv => {o with error := some "Divide by 0 error in expression"}
          | .error .fuelOut => {o with error := some "fuel exhausted (modeling artifact)"}
          | .error (.exn m) => {o with error := some m}
        if o.cType = .D then
          (o1, {st with symbols := symInsert st.symbols sym cv,
                        declaredValues := st.declaredValues ++ [sym],
                        ucaseSymbols := st.ucaseSymbols ++ [upperStr sym]})
        else if o.aliasKey then
          (o1, {st with symbols := symInsert st.symbols sym cv,
                        declaredVariables := st.declaredVariables ++ [sym],
                        ucaseSymbols := st.ucaseSymbols ++ [upperStr sym]})
        else
          let ram1 := st.ram + cv
          let o2 := if ram1 > MAXRAM then {o1 with error := some "Out of RAM (data) memory."} else o1
          (o2, {st with symbols := symInsert st.symbols sym st.ram,
                        ram := ram1,
                        declaredVariables := st.declaredVariables ++ [sym],
                        ucaseSymbols := st.ucaseSymbols ++ [upperStr sym]})
  else (o, st)

def pass2 (fuel : Nat) (ops : List Op) (st : Asm) : List Op × Asm :=
  runPass (pass2Step fuel) ops st

/-- Pass 3 (lines 961-982): `@`-operations whose symbol is still
unresolved allocate one implicit RAM slot. -/
def pass3Step (st : Asm) (o : Op) : Op × Asm :=
  if o.cType = .A then
    match o.symbol with
    | none => (o, st)
    | some sym =>
      if sym = "" then ({o with error := some "Empty symbol"}, st)
      else if is_constantL sym.toList then
        ({o with error := some "Cannot define a constant as a symbol"}, st)
      else if !is_symbol sym then ({o with error := some "Badly formed symbol"}, st)
      else if !symContains st.symbols sym then
        if st.ucaseSymbols.contains (upperStr sym) then
          ({o with error := some "Symbol previously defined (case-insensitive)"}, st)
        else
          let ram1 := st.ram + 1
          let o1 := if ram1 > MAXRAM then {o with error := some "Out of memory."} else o
          (o1, {st with symbols := symInsert st.symbols sym st.ram,
                        ram := ram1,
                        declaredVariables := st.declaredVariables ++ [sym],
                        implicitVariables := st.implicitVariables ++ [sym],
                        ucaseSymbols := st.ucaseSymbols ++ [upperStr sym]})
      else (o, st)
  else (o, st)

def pass3 (ops : List Op) (st : Asm) : List Op × Asm := runPass pass3Step ops st

/-! ## Pre-pass bookkeeping (lines 856-873) -/

/-- Warn about explicit references to reserved `__` symbols. -/
def dunderStep (o : Op) : Op :=
  if o.cType = .A ∧ (o.symbol.getD "").startsWith "__" then
    {o with warning := some "Use of __symbol in code; please be careful as these are reserved for internal assembler use."}
  else o

def dunderWarn (ops : List Op) : List Op := ops.map dunderStep

/-- The synthetic jump-to-initializer prologue prepended when any
declaration carries initializer values. -/
def scaffoldPre : List Op :=
  [{cType := .A, expression := some "__INIT",
    line := ⟨-1, "@__INIT // Jump to Initializer", "@__INIT // Jump to Initializer"⟩},
   {cType := .C, dest := some "NULL", comp := some "0", jump := some "JMP",
    line := ⟨-1, "0;JMP", "0;JMP"⟩},
   {cType := .L, symbol := some "__INIT.Ret", line := ⟨-1, "(__INIT.Ret)", "(__INIT.Ret)"⟩}]

/-- The synthetic initializer-entry label appended after all user code. -/
def scaffoldPost : Op :=
  {cType := .L, symbol := some "__INIT", line := ⟨-2, "(__INIT)", "(__INIT)"⟩}

/-! ## Initialization synthesizer (lines 992-1062) -/

/-- One scalar initializer: the Python tuple
`(val, symbol, offset, line_number)`. -/
structure InitEntry where
  val : Int
  symbol : String
  offset : Nat
  lineNo : Int
deriving Repr, DecidableEq

/-- Gather `InitEntry` records and per-expression error operations from
one declaration's initializer list (lines 1001-1012). -/
def gatherLine (fuel : Nat) (tbl : SymTable) (o : Op) (l : List String) :
    List InitEntry × List Op :=
  (l.enum).foldl (fun acc oe =>
    let (offset, expr) := oe
    let symbol := o.symbol.getD ""
    match evaluateF tbl fuel expr.toList false with
    | .ok v =>
      (acc.1 ++ [⟨if v ≥ 0 then v else 65536 + v, symbol, offset, o.line.num⟩], acc.2)
    | .error _ =>
      let badVar := symbol ++ (if l.length = 1 then "" else "[" ++ toString offset ++ "]")
      (acc.1, acc.2 ++
        [{cType := .A, expression := some (symbol ++ "+" ++ toString offset),
          line := o.line,
          error := some ("Invalid constant initialization expression [" ++ expr ++
            "] provided for " ++ badVar)}])) ([], [])

def gatherInit (fuel : Nat) (tbl : SymTable) : List Op → List InitEntry × List Op
  | [] => ([], [])
  | o :: rest =>
    let here := match o.init with
                | some l => gatherLine fuel tbl o l
                | none => ([], [])
    let there := gatherInit fuel tbl rest
    (here.1 ++ there.1, here.2 ++ there.2)

/-- Python `<` on strings: lexicographic comparison by code point. -/
def strLtB : List Char → List Char → Bool
  | [], [] => false
  | [], _ :: _ => true
  | _ :: _, [] => false
  | a :: as, b :: bs =>
    if a.toNat < b.toNat then true
    else if b.toNat < a.toNat then false
    else strLtB as bs

/-- `initinfo.sort()` compares the Python tuples
`(val, symbol, offset, line_number)` lexicographically. -/
def entryLe (a b : InitEntry) : Bool :=
  decide (a.val < b.val ∨ (a.val = b.val ∧ (strLtB a.symbol.data b.symbol.data = true ∨
    (a.symbol = b.symbol ∧
      (a.offset < b.offset ∨ (a.offset = b.offset ∧ a.lineNo ≤ b.lineNo))))))

def entryLeR (a b : InitEntry) : Prop := entryLe a b = true

instance : DecidableRel entryLeR := fun a b => by unfold entryLeR; infer_instance

/-- `initinfo.sort()` (line 1019).  Insertion sort under the total
lexicographic tuple order; because a compile that reaches the
synthesizer has no duplicate declarations, the tuples are pairwise
distinct and the sorted permutation is unique, so this agrees with the
source's (stable) sort. -/
def initSort (l : List InitEntry) : List InitEntry := List.insertionSort entryLeR l

/-- The `@symbol+offset` operation every entry's store uses. -/
def aStoreOp (symbol : String) (offset : Nat) (ln : Int) : Op :=
  {cType := .A, expression := some (symbol ++ "+" ++ toString offset),
   line := ⟨ln, "@" ++ symbol ++ "+" ++ toString offset, "@" ++ symbol ++ "+" ++ toString offset⟩}

/-- `D`-register load for a value that is neither 0, 1 nor -1: a 15-bit
value loads directly, a 16-bit value loads `(~val) & 0xFFFF` and
complements in the compute stage (lines 1036-1041). -/
def initLoadOps (val : Int) (ln : Int) : List Op :=
  if val < 32768 then
    [{cType := .A, expression := some (toString val),
      line := ⟨ln, "@" ++ toString val, "@" ++ toString val⟩},
     {cType := .C, dest := some "D", comp := some "A", jump := some "NULL",
      line := ⟨ln, "D=A // INIT to 15-bit value (" ++ toString val ++ ")",
              "D=A // INIT to 15-bit value (" ++ toString val ++ ")"⟩}]
  else
    [{cType := .A, expression := some (toString ((-val - 1).emod 65536)),
      line := ⟨ln, "@" ++ toString ((-val - 1).emod 65536), "@" ++ toString ((-val - 1).emod 65536)⟩},
     {cType := .C, dest := some "D", comp := some "!A", jump := some "NULL",
      line := ⟨ln, "D=!A // INIT to 16-bit value ({val})", "D=!A // INIT to 16-bit value ({val})"⟩}]

/-- The one-instruction `D=D+1` adjacent-value step (line 1035). -/
def initIncOp (val : Int) (ln : Int) : Op :=
  {cType := .C, dest := some "D", comp := some "D+1", jump := some "NULL",
   line := ⟨ln, "D=D+1 // INIT to adjacent value (" ++ toString val ++ ")",
           "D=D+1 // INIT to adjacent value (" ++ toString val ++ ")"⟩}

/-- The `M=D` store pair appended for every non-special entry
(lines 1045-1046). -/
def initStoreOps (symbol : String) (offset : Nat) (ln : Int) : List Op :=
  [aStoreOp symbol offset ln,
   {cType := .C, dest := some "M", comp := some "D", jump := some "NULL", line := ⟨ln, "M=D", "M=D"⟩}]

/-- The code-generation walk over the sorted entries (lines 1023-1048),
carrying `lastval` (initially -1): values 0 and 1 are written as
immediate compute operands; 65535 (-1) likewise; otherwise a value equal
to `lastval` stores without reloading `D`, a value `lastval + 1` other
than 2 increments `D`, and anything else freshly loads `D`. -/
def genInit : Int → List InitEntry → List Op
  | _, [] => []
  | lastval, e :: rest =>
    (if e.val = 0 ∨ e.val = 1 then
      [aStoreOp e.symbol e.offset e.lineNo,
       {cType := .C, dest := some "M", comp := some (toString e.val), jump := some "NULL",
        line := ⟨e.lineNo, "M=" ++ toString e.val ++ " // INIT to HACK constant (" ++ toString e.val ++ ")",
                "M=" ++ toString e.val ++ " // INIT to HACK constant (" ++ toString e.val ++ ")"⟩}]
     else if e.val = 65535 then
      [aStoreOp e.symbol e.offset e.lineNo,
       {cType := .C, dest := some "M", comp := some "-1", jump := some "NULL",
        line := ⟨e.lineNo, "M=-1 // INIT to HACK constant (" ++ toString e.val ++ ")",
                "M=-1 // INIT to HACK constant (" ++ toString e.val ++ ")"⟩}]
     else
      (if e.val ≠ lastval then
        (if e.val = lastval + 1 ∧ e.val ≠ 2 then [initIncOp e.val e.lineNo]
         else initLoadOps e.val e.lineNo)
       else []) ++ initStoreOps e.symbol e.offset e.lineNo) ++ genInit e.val rest

/-- The jump back to the return label (lines 1052-1053). -/
def retOps : List Op :=
  [{cType := .A, expression := some "__INIT.Ret", line := ⟨-3, "@__INIT.Ret", "@__INIT.Ret"⟩},
   {cType := .C, dest := some "NULL", comp := some "0", jump := some "JMP", line := ⟨-3, "0;JMP", "0;JMP"⟩}]

def hasErrorOps (ops : List Op) : Bool := ops.any (fun o => o.error.isSome)

/-- The complete synthesized initializer body. -/
def initOpsOf (fuel : Nat) (tbl : SymTable) (ops : List Op) : List Op :=
  let ge := gatherInit fuel tbl ops
  ge.2 ++ genInit (-1) (initSort ge.1) ++ retOps

/-- `ops[-1]['error'] = msg`. -/
def setLastError (msg : String) : List Op → List Op
  | [] => []
  | [o] => [{o with error := some msg}]
  | o :: rest => o :: setLastError msg rest

/-- Lines 994-1062: when the passes produced no errors and initialization
is needed, append the synthesized code, advance `pc` by its length, and
mark the last operation with `Program too large!` when `pc` reaches
`MAXROM`.  This is the only place the source compares `pc` against ROM
capacity. -/
def initPhase (fuel : Nat) (initNeeded : Bool) (ops : List Op) (st : Asm) : List Op × Int :=
  if !hasErrorOps ops && initNeeded then
    let initops := initOpsOf fuel st.symbols ops
    let ops1 := ops ++ initops
    let pc1 := st.pc + initops.length
    (if pc1 ≥ MAXROM then setLastError "Program too large!" ops1 else ops1, pc1)
  else (ops, st.pc)

/-! ## Instruction encoder (`codegen`, lines 615-723) -/

/-- The table entries whose text is a prefix of `oc` (the `startswith`
matching for the precise-ALU form, lines 678-703). -/
def prefMatches (tbl : SymTable) (oc : List Char) : List (Int × String) :=
  tbl.filterMap (fun p => if p.1.toList.isPrefixOf oc then some (p.2, p.1) else none)

/-- `codegen(o)` (line 615).  `Except` models the exceptions Python would
let escape (a bad stored constant or a missing symbol — both excluded by
the parser and pass 3 — and fuel exhaustion); every real outcome is
`.ok`, possibly with an `error` field on the operation. -/
def codegen (fuel : Nat) (tbl : SymTable) (o : Op) : Except String Op :=
  match o.cType with
  | .A =>
    match o.constant with
    | some c =>
      match constantF c.toList with
      | .ok av => .ok {o with code := some (av.emod 32768)}
      | .error m => .error m
    | none =>
      match o.symbol with
      | some s =>
        match symLookup tbl s with
        | some av => .ok {o with code := some (av.emod 32768)}
        | none => .error ("KeyError: " ++ s)
      | none =>
        match evaluateF tbl fuel (o.expression.getD "").toList false with
        | .ok av =>
          let o1 := if av < -16384 ∨ 32767 < av then
              {o with warning := some "@expression out of -16384..32767 range; lower 15 bits used"}
            else o
          .ok {o1 with code := some (av.emod 32768)}
        | .error .zeroDiv => .ok {o with error := some "Divide by 0 error in expression", code := some 0}
        | .error .fuelOut => .error "fuel exhausted (modeling artifact)"
        | .error (.exn m) => .ok {o with error := some m, code := some 0}
  | .C =>
    let oc := o.comp.getD ""
    let od := o.dest.getD ""
    let oj := o.jump.getD ""
    match symLookup COMPS oc with
    | none => .ok {o with error := some ("Unknown alu operation " ++ oc)}
    | some cv =>
      match symLookup DESTS od with
      | none => .ok {o with error := some ("Unknown destination " ++ od)}
      | some dv =>
        match symLookup JMPS oj with
        | none => .ok {o with error := some ("Unknown jump " ++ oj)}
        | some jv => .ok {o with code := some (CINSTR + cv + dv + jv)}
  | .K =>
    let oc0 := (o.comp.getD "").toList
    let od := o.dest.getD ""
    let oj := o.jump.getD ""
    let hasNot := oc0.take 2 = ['!', '('] ∨ oc0.take 2 = ['~', '(']
    if hasNot ∧ oc0.getLast? ≠ some ')' then
      .ok {o with error := some "No closing parenthesis on custom ALU operation"}
    else
      let c0 := CINSTR + (if hasNot then NOTALU else ALU)
      let oc1 := if hasNot then (oc0.drop 2).dropLast else oc0
      match prefMatches XOPS oc1 with
      | [(xv, xs)] =>
        let oc2 := oc1.drop xs.length
        match prefMatches FUNCS oc2 with
        | [(fv, fs)] =>
          let oc3 := oc2.drop fs.length
          match prefMatches YOPS oc3 with
          | [(yv, ys)] =>
            let oc4 := oc3.drop ys.length
            if oc4 ≠ [] then .ok {o with error := some "Extra symbols in custom ALU operation"}
            else
              match symLookup DESTS od with
              | none => .ok {o with error := some ("Unknown destination " ++ od)}
              | some dv =>
                match symLookup JMPS oj with
                | none => .ok {o with error := some ("Unknown jump " ++ oj)}
                | some jv => .ok {o with code := some (c0 + xv + fv + yv + dv + jv)}
          | _ => .ok {o with error := some "Unknown custom ALU operation X-operation"}
        | _ => .ok {o with error := some "Unknown custom ALU operation function"}
      | _ => .ok {o with error := some "Unknown custom ALU operation X-operation"}
  | _ => .ok o

def codegenAll (fuel : Nat) (tbl : SymTable) : List Op → Except String (List Op)
  | [] => .ok []
  | o :: rest => do
    let o1 ← codegen fuel tbl o
    let rest1 ← codegenAll fuel tbl rest
    .ok (o1 :: rest1)

/-! ## The assembler pipeline (`avengers_assemble`, lines 801-1123)

The embedding starts where the operation list exists (line 846 onward) —
file I/O, normalization and report printing are outside the verified
claims — and stops with the final operation list (with any attached
errors/warnings and generated code words), the final program counter,
RAM cursor and symbol table. -/

structure AsmOut where
  ops : List Op
  pc : Int
  ram : Int
  symbols : SymTable
deriving Repr, DecidableEq

def assemble (fuel : Nat) (ops0 : List Op) : Except String AsmOut :=
  let ops1 := dunderWarn ops0
  let needed := ops1.any (fun o => o.init.isSome)
  let ops2 := if needed then scaffoldPre ++ ops1 ++ [scaffoldPost] else ops1
  let p1 := pass1 ops2 {}
  let p2 := pass2 fuel p1.1 p1.2
  let p3 := pass3 p2.1 p2.2
  let ip := initPhase fuel needed p3.1 p3.2
  if hasErrorOps ip.1 then .ok ⟨ip.1, ip.2, p3.2.ram, p3.2.symbols⟩
  else (codegenAll fuel p3.2.symbols ip.1).map (fun opsF => ⟨opsF, ip.2, p3.2.ram, p3.2.symbols⟩)

/-! ## Concrete operations and helper functions used by the claim
statements -/

/-- The parse of the extended-compute line `D:=D+0`. -/
def kOpDD0 : Op :=
  {cType := .K, dest := some "D", comp := some "D+0", jump := some "NULL",
   line := ⟨1, "D:=D+0", "D:=D+0"⟩}

/-- The parse of the label line `(r0)` — a case variant of the predefined
symbol `R0`. -/
def labelR0 : Op := {cType := .L, symbol := some "r0", line := ⟨1, "(r0)", "(r0)"⟩}

/-- The parse of `@40000`: a literal-constant address operation whose
value does not fit in 15 bits. -/
def c5ConstOp : Op := {cType := .A, constant := some "40000", line := ⟨1, "@40000", "@40000"⟩}

/-- A plain (non-alias, uninitialized) variable declaration operation as
pass 2 sees it. -/
def mkVarDecl (name expr : String) : Op :=
  {cType := .V, symbol := some name, expression := some expr}

/-- An alias variable declaration operation. -/
def mkAliasDecl (name expr : String) : Op :=
  {cType := .V, symbol := some name, expression := some expr, aliasKey := true}

/-- The bindings pass 2 appends for a run of plain variable declarations
`(name, sizeExpression, sizeValue)` starting at RAM cursor `r`. -/
def allocSyms (r : Int) : List (String × String × Int) → SymTable
  | [] => []
  | d :: ds => (d.1, r) :: allocSyms (r + d.2.2) ds

/-- Total declared size of a run of variable declarations. -/
def sizesSum : List (String × String × Int) → Int
  | [] => 0
  | d :: ds => d.2.2 + sizesSum ds

/-- The parse of `@0`. -/
def aConstOp : Op := {cType := .A, constant := some "0", line := ⟨1, "@0", "@0"⟩}

/-- `@0` after encoding. -/
def aConstOpC : Op := {aConstOp with code := some 0}

/-- The parse of `$x=7`: one declaration with one initializer value. -/
def initDeclOp : Op :=
  {cType := .V, symbol := some "x", expression := some "1", init := some ["7"],
   line := ⟨1, "$x=7", "$x=7"⟩}

/-- Initializer values `[5, 0, 1, 5, 6]` at distinct locations. -/
def entries6 : List InitEntry :=
  [⟨5, "a", 0, 1⟩, ⟨0, "b", 0, 2⟩, ⟨1, "c", 0, 3⟩, ⟨5, "d", 0, 4⟩, ⟨6, "e", 0, 5⟩]

/-- The same with the final 6 replaced by a fresh unrelated value 9. -/
def entries9 : List InitEntry :=
  [⟨5, "a", 0, 1⟩, ⟨0, "b", 0, 2⟩, ⟨1, "c", 0, 3⟩, ⟨5, "d", 0, 4⟩, ⟨9, "e", 0, 5⟩]

/-! # Theorems -/

/-! ## General helper lemmas -/

theorem rfindC_eq_none {s : List Char} {c : Char} (h : s.contains c = false) :
    rfindC s c = none := by
  induction s with
  | nil => rfl
  | cons a rest ih =>
    simp only [List.contains_cons, Bool.or_eq_false_iff, beq_eq_false_iff_ne] at h
    simp [rfindC, ih h.2, Ne.symm h.1]

/-! ## C1 — pass 1 and ExtendedCompute operations

The claim says pass 1 advances `pc` by one for every Address, Compute
**and ExtendedCompute** operation.  The source (line 902) advances `pc`
only for `cType` `'A'` and `'C'`; a `'K'` (ExtendedCompute) operation
leaves `pc` unchanged even though the encoder emits one instruction word
for it, so labels placed after a `K` operation receive too-small
addresses and the final `pc` undercounts the program. -/

/-- C1: the line `D:=D+0` parses to an ExtendedCompute operation for
which the encoder emits an instruction word, yet pass 1 over that single
operation leaves `pc` at 0 where the claim requires 1. -/
theorem c1_extended_compute_pc_bug :
    operationF 30 predefSymbols ⟨1, "D:=D+0", "D:=D+0"⟩ = .ok kOpDD0 ∧
    (pass1 [kOpDD0] {}).2.pc = 0 ∧
    codegen 30 predefSymbols kOpDD0 = .ok {kOpDD0 with code := some 58000} ∧
    (0 : Int) ≠ 1 :=
  ⟨rfl, rfl, rfl, by decide⟩

/-! ## C2 — the operation parser can raise

The claim says `operation` never raises.  In the `$name(size)=values`
branch the source (line 558) calls `evaluate(vsize)` with no handler, so
a size expression that fails to evaluate — here the never-defined symbol
`y` — propagates an exception that aborts the whole run instead of
becoming an `Error`-kind operation. -/

/-- C2: parsing the normalized line `$x(y)=1,2` raises
(`Undefined symbol [y] in expression`) instead of returning an
`Error`-kind operation. -/
theorem c2_parser_uncaught_size_exception :
    operationF 30 predefSymbols ⟨1, "$x(y)=1,2", "$x(y)=1,2"⟩ =
      .error "Undefined symbol [y] in expression" := rfl

/-! ## C3 — symbol collisions

The case-insensitivity list `ucase_symbols` starts empty (line 155): the
predefined symbols are never entered into it, so a name that collides
only case-insensitively with a predefined symbol is inserted without any
error.  Exact collisions with any existing symbol, and case-insensitive
collisions with symbols added during the assembly, do error, and then
nothing is inserted. -/

/-- C3 counterexample: the label `(r0)` collides case-insensitively with
the predefined symbol `R0`, yet pass 1 attaches no error and binds `r0`
to the current `pc`, so the colliding declaration's value is
observable. -/
theorem c3_predefined_case_collision_undetected :
    (pass1 [labelR0] {}).1 = [labelR0] ∧
    labelR0.error = none ∧
    symLookup (pass1 [labelR0] {}).2.symbols "r0" = some 0 ∧
    symContains predefSymbols "R0" = true ∧
    upperStr "r0" = "R0" :=
  ⟨rfl, rfl, rfl, rfl, rfl⟩

/-- C3 amended: in each pass, a symbol that collides exactly with any
existing symbol, or case-insensitively with a symbol recorded in the
assembly's case-insensitivity list (which receives only symbols added
during the assembly, not the predefined ones), always gets an error
attached, and the state — in particular the symbol table — is left
unchanged, so the colliding value is never observable. -/
theorem c3_collision_always_errors_amended :
    (∀ (st : Asm) (o : Op) (sym : String), o.cType = .L → o.symbol = some sym →
      sym ≠ "" → is_symbol sym = true →
      (symContains st.symbols sym = true ∨ st.ucaseSymbols.contains (upperStr sym) = true) →
      (pass1Step st o).1.error.isSome = true ∧ (pass1Step st o).2 = st) ∧
    (∀ (fuel : Nat) (st : Asm) (o : Op) (sym : String),
      (o.cType = .V ∨ o.cType = .D) → o.symbol = some sym →
      sym ≠ "" → is_constantL sym.toList = false → is_symbol sym = true →
      (symContains st.symbols sym = true ∨ st.ucaseSymbols.contains (upperStr sym) = true) →
      (pass2Step fuel st o).1.error.isSome = true ∧ (pass2Step fuel st o).2 = st) ∧
    (∀ (st : Asm) (o : Op) (sym : String), o.cType = .A → o.symbol = some sym →
      sym ≠ "" → is_constantL sym.toList = false → is_symbol sym = true →
      symContains st.symbols sym = false → st.ucaseSymbols.contains (upperStr sym) = true →
      (pass3Step st o).1.error.isSome = true ∧ (pass3Step st o).2 = st) := by
  refine ⟨?_, ?_, ?_⟩
  · intro st o sym hct hsym hne hval hcol
    unfold pass1Step
    rw [hct, hsym]
    by_cases hc : symContains st.symbols sym = true
    · simp [hne, hval, hc]
    · have hmem : upperStr sym ∈ st.ucaseSymbols := by
        rcases hcol with h | h
        · exact absurd h hc
        · simpa using h
      simp [hne, hval, hc, hmem]
  · intro fuel st o sym hct hsym hne hnc hval hcol
    unfold pass2Step
    rw [if_pos hct, hsym]
    have hnc' : is_constantL sym.data = false := hnc
    by_cases hc : symContains st.symbols sym = true
    · simp [hne, hnc', hval, hc]
    · have hmem : upperStr sym ∈ st.ucaseSymbols := by
        rcases hcol with h | h
        · exact absurd h hc
        · simpa using h
      simp [hne, hnc', hval, hc, hmem]
  · intro st o sym hct hsym hne hnc hval hncon hcase
    unfold pass3Step
    rw [if_pos hct, hsym]
    have hnc' : is_constantL sym.data = false := hnc
    have hmem : upperStr sym ∈ st.ucaseSymbols := by simpa using hcase
    simp [hne, hnc', hval, hncon, hmem]

/-- C3 amended, witness: an exact collision (a second label `R0` against
the predefined `R0`) errors in pass 1 and leaves the state unchanged, and
a case-insensitive collision with an assembly-added symbol errors in
pass 3. -/
theorem c3_collision_always_errors_amended_witness :
    ((pass1Step {} {cType := .L, symbol := some "R0", line := ⟨1, "(R0)", "(R0)"⟩}).1.error.isSome = true ∧
     (pass1Step {} {cType := .L, symbol := some "R0", line := ⟨1, "(R0)", "(R0)"⟩}).2 = {}) ∧
    ((pass3Step {ucaseSymbols := ["COUNT"]}
        {cType := .A, symbol := some "count", line := ⟨2, "@count", "@count"⟩}).1.error.isSome = true ∧
     (pass3Step {ucaseSymbols := ["COUNT"]}
        {cType := .A, symbol := some "count", line := ⟨2, "@count", "@count"⟩}).2 = {ucaseSymbols := ["COUNT"]}) :=
  ⟨c3_collision_always_errors_amended.1 {} _ "R0" rfl rfl (by decide) rfl (Or.inl rfl),
   c3_collision_always_errors_amended.2.2 {ucaseSymbols := ["COUNT"]} _ "count" rfl rfl
     (by decide) rfl rfl rfl rfl⟩

/-! ## C5 — address encoding and the range warning

The claim says every Address operand kind gets the out-of-range warning.
In `codegen` (lines 617-635) the range check sits inside the
expression-operand branch only: literal constants and symbol values are
masked silently. -/

/-- C5 counterexample: `@40000` parses to a literal-constant address
operation; 40000 exceeds 32767, yet encoding attaches no warning and
silently emits `40000 & 0x7FFF = 7232`. -/
theorem c5_literal_constant_masked_without_warning :
    operationF 30 predefSymbols ⟨1, "@40000", "@40000"⟩ = .ok c5ConstOp ∧
    codegen 30 predefSymbols c5ConstOp = .ok {c5ConstOp with code := some 7232} ∧
    (32767 : Int) < 40000 ∧ c5ConstOp.warning = none :=
  ⟨rfl, rfl, by decide, rfl⟩

/-- C5 amended: every Address operand kind is masked to 15 bits
(`value & 0x7FFF`, embedded as `value.emod 32768`), but the non-fatal
out-of-range warning is attached only when the operand is an expression;
literal-constant and symbol operands are masked with no warning. -/
theorem c5_address_masking_amended :
    (∀ (fuel : Nat) (tbl : SymTable) (o : Op) (e : String) (v : Int),
      o.cType = .A → o.constant = none → o.symbol = none → o.expression = some e →
      evaluateF tbl fuel e.toList false = .ok v → (v < -16384 ∨ 32767 < v) →
      codegen fuel tbl o =
        .ok {o with warning := some "@expression out of -16384..32767 range; lower 15 bits used",
                    code := some (v.emod 32768)}) ∧
    (∀ (fuel : Nat) (tbl : SymTable) (o : Op) (e : String) (v : Int),
      o.cType = .A → o.constant = none → o.symbol = none → o.expression = some e →
      evaluateF tbl fuel e.toList false = .ok v → ¬(v < -16384 ∨ 32767 < v) →
      codegen fuel tbl o = .ok {o with code := some (v.emod 32768)}) ∧
    (∀ (fuel : Nat) (tbl : SymTable) (o : Op) (c : String) (v : Int),
      o.cType = .A → o.constant = some c → constantF c.toList = .ok v →
      codegen fuel tbl o = .ok {o with code := some (v.emod 32768)}) ∧
    (∀ (fuel : Nat) (tbl : SymTable) (o : Op) (s : String) (v : Int),
      o.cType = .A → o.constant = none → o.symbol = some s → symLookup tbl s = some v →
      codegen fuel tbl o = .ok {o with code := some (v.emod 32768)}) := by
  refine ⟨?_, ?_, ?_, ?_⟩
  · intro fuel tbl o e v hct hconst hsymn hexp hev hrange
    unfold codegen
    rw [hct, hconst, hsymn, hexp]
    have hev' : evaluateF tbl fuel e.data false = .ok v := hev
    simp only [Option.getD_some, hev, hev']
    rw [if_pos hrange]
  · intro fuel tbl o e v hct hconst hsymn hexp hev hrange
    unfold codegen
    rw [hct, hconst, hsymn, hexp]
    have hev' : evaluateF tbl fuel e.data false = .ok v := hev
    simp only [Option.getD_some, hev, hev']
    rw [if_neg hrange]
    simp [hct, hconst, hsymn, hexp]
  · intro fuel tbl o c v hct hconst hev
    unfold codegen
    rw [hct, hconst]
    have hev' : constantF c.data = .ok v := hev
    simp only [hev, hev']
  · intro fuel tbl o s v hct hconst hsym hlook
    unfold codegen
    rw [hct, hconst, hsym]
    simp only [hlook]

/-- C5 amended, witness: the expression operand `39999+1` evaluates to
40000, which is out of range, so encoding attaches the warning and masks
the word to 7232. -/
theorem c5_address_masking_amended_witness :
    codegen 5 predefSymbols
        {cType := .A, expression := some "39999+1", line := ⟨1, "@39999+1", "@39999+1"⟩} =
      .ok {cType := .A, expression := some "39999+1", line := ⟨1, "@39999+1", "@39999+1"⟩,
           warning := some "@expression out of -16384..32767 range; lower 15 bits used",
           code := some 7232} :=
  c5_address_masking_amended.1 5 predefSymbols _ "39999+1" 40000 rfl rfl rfl rfl rfl
    (Or.inr (by decide))

/-! ## C9 — division semantics

The claim says integer division truncates toward the dividend's sign
(so `-7/2` would be `-3`).  The evaluator (line 446) uses Python `//`,
which is floor division: the quotient rounds toward negative infinity
and `-7/2` evaluates to `-4`. -/

/-- C9 counterexample: the evaluator yields `-4` for `-7/2`, not the
`-3` that truncation toward the dividend's sign would give. -/
theorem c9_division_rounds_toward_neg_infinity :
    evaluateF predefSymbols 30 "-7/2".toList false = .ok (-4) ∧ ((-4 : Int) ≠ -3) :=
  ⟨rfl, by decide⟩

/-- C9 amended: every binary division performed by the evaluator is
Python floor division (quotient rounded toward negative infinity,
`Int.fdiv`), which differs from truncation toward the dividend's sign on
negative dividends: `-7/2 = -4` while `7/2 = 3`. -/
theorem c9_floor_division_amended :
    (∀ a b : Int, b ≠ 0 → applyBin '/' a b = .ok (a.fdiv b)) ∧
    evaluateF predefSymbols 30 "-7/2".toList false = .ok (Int.fdiv (-7) 2) ∧
    Int.fdiv (-7) 2 = -4 ∧ Int.fdiv 7 2 = 3 := by
  refine ⟨?_, rfl, by decide, by decide⟩
  intro a b h
  unfold applyBin
  rw [if_neg (by decide), if_neg (by decide), if_neg (by decide), if_pos rfl, if_neg h]

/-- C9 amended, witness: floor division at `-7 / 2`. -/
theorem c9_floor_division_amended_witness :
    applyBin '/' (-7) 2 = .ok (Int.fdiv (-7) 2) :=
  c9_floor_division_amended.1 (-7) 2 (by decide)

/-! ## C6 — operator selection has no precedence

The evaluator (line 398) takes the split point to be the greatest index
at which any operator character occurs (`lastOpIdx`, the max of the
per-operator `rfind`s), evaluates the left side recursively first, and
applies the operator at the split to the two sides, so `2+3*4 = (2+3)*4`
and `10-3*2 = (10-3)*2`. -/

/-- C6: `evaluate("2+3*4") = 20` and `evaluate("10-3*2") = 14`, and in
general (for operator-containing, parenthesis-free text whose last
operator occurrence is not a unary operator) the evaluator splits at the
greatest index holding any operator character, evaluating the left part
first — no precedence. -/
theorem c6_no_operator_precedence :
    evaluateF predefSymbols 30 "2+3*4".toList false = .ok 20 ∧
    evaluateF predefSymbols 30 "10-3*2".toList false = .ok 14 ∧
    (∀ (tbl : SymTable) (fuel : Nat) (chk : Bool) (s : List Char) (i : Nat),
      lastOpIdx s = some i →
      UNARYOPERATORS.contains (s.getD i ' ') = false →
      s.contains '(' = false → s.contains ')' = false →
      s.getLast? ≠ some '\\' →
      evaluateF tbl (fuel + 1) s chk = do
        let p1 ← evaluateF tbl fuel (s.take i) chk
        let p2 ← evaluateF tbl fuel (s.drop (i + 1)) chk
        applyBin (s.getD i ' ') p1 p2) ∧
    (∀ (tbl : SymTable) (fuel : Nat) (chk : Bool) (s : List Char) (i : Nat),
      lastOpIdx s = some i → 0 < i →
      UNARYOPERATORS.contains (s.getD i ' ') = true →
      OPERATORS.contains (s.getD (i - 1) ' ') = false →
      s.contains '(' = false → s.contains ')' = false →
      s.getLast? ≠ some '\\' →
      evaluateF tbl (fuel + 1) s chk = do
        let p1 ← evaluateF tbl fuel (s.take i) chk
        let p2 ← evaluateF tbl fuel (s.drop (i + 1)) chk
        applyBin (s.getD i ' ') p1 p2) := by
  refine ⟨rfl, rfl, ?_, ?_⟩
  · intro tbl fuel chk s i hop hnu hnp hnr hnb
    cases s with
    | nil => simp [lastOpIdx] at hop
    | cons a s' =>
      have hrf : rfindC (a :: s') '(' = none := rfindC_eq_none hnp
      rw [evaluateF]
      simp only [List.isEmpty_cons, hrf, hop]
      have hnr2 : ¬(')' = a ∨ ')' ∈ s') := by simpa using hnr
      have hnu2 : ¬((a :: s')[i]?.getD ' ' ∈ UNARYOPERATORS) := by
        simpa [List.getD] using hnu
      simp [hnr2, hnb, hnu2]
  · intro tbl fuel chk s i hop hpos hyu hpr hnp hnr hnb
    cases s with
    | nil => simp [lastOpIdx] at hop
    | cons a s' =>
      have hrf : rfindC (a :: s') '(' = none := rfindC_eq_none hnp
      rw [evaluateF]
      simp only [List.isEmpty_cons, hrf, hop]
      have hnr2 : ¬(')' = a ∨ ')' ∈ s') := by simpa using hnr
      have hyu2 : (a :: s')[i]?.getD ' ' ∈ UNARYOPERATORS := by
        have := hyu
        simpa [List.getD] using this
      have hpr2 : ¬((a :: s')[i - 1]?.getD ' ' ∈ OPERATORS) := by
        simpa [List.getD] using hpr
      simp [hnr2, hnb, hyu2, hpos, hpr2]

/-- C6, witness: the non-unary split clause applied to `2+3*4` at its
last operator index 3 (the `*`), and the unary-at-split clause applied
to `5+3` at index 1 (the `+`, not preceded by an operator). -/
theorem c6_no_operator_precedence_witness :
    (evaluateF [] 4 "2+3*4".toList false = (do
      let p1 ← evaluateF [] 3 ("2+3*4".toList.take 3) false
      let p2 ← evaluateF [] 3 ("2+3*4".toList.drop 4) false
      applyBin ("2+3*4".toList.getD 3 ' ') p1 p2)) ∧
    (evaluateF [] 4 "5+3".toList false = (do
      let p1 ← evaluateF [] 3 ("5+3".toList.take 1) false
      let p2 ← evaluateF [] 3 ("5+3".toList.drop 2) false
      applyBin ("5+3".toList.getD 1 ' ') p1 p2)) :=
  ⟨c6_no_operator_precedence.2.2.1 [] 3 false "2+3*4".toList 3 rfl rfl rfl rfl (by decide),
   c6_no_operator_precedence.2.2.2 [] 3 false "5+3".toList 1 rfl (by decide) rfl rfl rfl rfl
     (by decide)⟩

/-! ## C10 — a declaration whose expression fails still binds its symbol

Pass 2 (lines 930-951) catches the evaluation exception, attaches the
error to the operation, substitutes the dummy value 1 and *continues
into the insertion code*: a constant is bound to 1, a plain variable is
bound to the current RAM cursor with the cursor advanced by 1. -/

/-- C10: when a constant or non-alias variable declaration passes the
naming checks but its expression evaluation fails, pass 2 attaches the
error and still inserts the symbol — the constant at the dummy value 1,
the variable at the current RAM cursor with the cursor advanced by 1. -/
theorem c10_failed_eval_still_inserts (fuel : Nat) (st : Asm) (o : Op) (sym : String) (e : EvalErr)
    (hct : o.cType = .D ∨ (o.cType = .V ∧ o.aliasKey = false))
    (hsym : o.symbol = some sym) (hne : sym ≠ "")
    (hnc : is_constantL sym.toList = false) (hval : is_symbol sym = true)
    (hfresh : symContains st.symbols sym = false)
    (hucase : st.ucaseSymbols.contains (upperStr sym) = false)
    (hev : evaluateF st.symbols fuel (o.expression.getD "").toList false = .error e)
    (hnf : e ≠ .fuelOut) :
    (pass2Step fuel st o).1.error.isSome = true ∧
    (o.cType = .D → (pass2Step fuel st o).2.symbols = symInsert st.symbols sym 1 ∧
                    (pass2Step fuel st o).2.ram = st.ram) ∧
    (o.cType = .V → (pass2Step fuel st o).2.symbols = symInsert st.symbols sym st.ram ∧
                    (pass2Step fuel st o).2.ram = st.ram + 1) := by
  have hct2 : o.cType = .V ∨ o.cType = .D := by tauto
  have hnc' : is_constantL sym.data = false := hnc
  have hnmem : upperStr sym ∉ st.ucaseSymbols := by simpa using hucase
  have hev' : evaluateF st.symbols fuel (o.expression.getD "").data false = .error e := hev
  unfold pass2Step
  rw [if_pos hct2, hsym]
  rcases hct with hD | ⟨hV, hal⟩
  · rw [hD]
    cases e with
    | fuelOut => exact absurd rfl hnf
    | zeroDiv => simp [hne, hnc', hval, hfresh, hnmem, hev, hev', hD]
    | exn m => simp [hne, hnc', hval, hfresh, hnmem, hev, hev', hD]
  · rw [hV, hal]
    cases e with
    | fuelOut => exact absurd rfl hnf
    | zeroDiv =>
      by_cases hcap : st.ram + 1 > MAXRAM
      · simp [hne, hnc', hval, hfresh, hnmem, hev, hev', hV, hcap]
      · simp [hne, hnc', hval, hfresh, hnmem, hev, hev', hV, hcap]
    | exn m =>
      by_cases hcap : st.ram + 1 > MAXRAM
      · simp [hne, hnc', hval, hfresh, hnmem, hev, hev', hV, hcap]
      · simp [hne, hnc', hval, hfresh, hnmem, hev, hev', hV, hcap]

/-- C10, witness: `#c1=1/0` binds `c1` to 1 with an error attached, and
`$v1(0/0)` allocates `v1` at RAM 16 advancing the cursor to 17. -/
theorem c10_failed_eval_still_inserts_witness :
    ((pass2Step 5 {} {cType := .D, symbol := some "c1", expression := some "1/0",
                      line := ⟨1, "#c1=1/0", "#c1=1/0"⟩}).1.error.isSome = true ∧
     (pass2Step 5 {} {cType := .D, symbol := some "c1", expression := some "1/0",
                      line := ⟨1, "#c1=1/0", "#c1=1/0"⟩}).2.symbols =
        symInsert predefSymbols "c1" 1) ∧
    ((pass2Step 5 {} {cType := .V, symbol := some "v1", expression := some "0/0",
                      init := some [], line := ⟨2, "$v1(0/0)", "$v1(0/0)"⟩}).2.symbols =
        symInsert predefSymbols "v1" 16 ∧
     (pass2Step 5 {} {cType := .V, symbol := some "v1", expression := some "0/0",
                      init := some [], line := ⟨2, "$v1(0/0)", "$v1(0/0)"⟩}).2.ram = 17) := by
  have hD := c10_failed_eval_still_inserts 5 {}
    {cType := .D, symbol := some "c1", expression := some "1/0",
     line := ⟨1, "#c1=1/0", "#c1=1/0"⟩}
    "c1" .zeroDiv (Or.inl rfl) rfl (by decide) rfl rfl rfl rfl rfl (by decide)
  have hV := c10_failed_eval_still_inserts 5 {}
    {cType := .V, symbol := some "v1", expression := some "0/0", init := some [],
     line := ⟨2, "$v1(0/0)", "$v1(0/0)"⟩}
    "v1" .zeroDiv (Or.inr ⟨rfl, rfl⟩) rfl (by decide) rfl rfl rfl rfl rfl (by decide)
  exact ⟨⟨hD.1, (hD.2.1 rfl).1⟩, (hV.2.2 rfl).1, (hV.2.2 rfl).2⟩

/-! ## C7 — initialization ordering and the adjacency optimization

`initinfo.sort()` (line 1019) sorts the `(value, symbol, offset, line)`
tuples lexicographically, hence ascending by (unsigned 16-bit) value;
the generation walk (lines 1023-1048) then reuses the loaded `D` for an
equal value, emits a single `D=D+1` for a value one greater than the
previous emitted value when that previous value was not one of the
no-load special cases, and freshly loads `D` otherwise. -/

theorem strLtB_trans : ∀ {a b c : List Char},
    strLtB a b = true → strLtB b c = true → strLtB a c = true := by
  intro a
  induction a with
  | nil =>
    intro b c hab hbc
    cases b with
    | nil => exact absurd hab (by simp [strLtB])
    | cons y ys =>
      cases c with
      | nil => exact absurd hbc (by simp [strLtB])
      | cons z zs => simp [strLtB]
  | cons x xs ih =>
    intro b c hab hbc
    cases b with
    | nil => exact absurd hab (by simp [strLtB])
    | cons y ys =>
      cases c with
      | nil => exact absurd hbc (by simp [strLtB])
      | cons z zs =>
        by_cases hxy : x.toNat < y.toNat
        · by_cases hyz : y.toNat < z.toNat
          · simp [strLtB, show x.toNat < z.toNat by omega]
          · by_cases hzy : z.toNat < y.toNat
            · rw [strLtB, if_neg hyz, if_pos hzy] at hbc; exact absurd hbc (by simp)
            · simp [strLtB, show x.toNat < z.toNat by omega]
        · by_cases hyx : y.toNat < x.toNat
          · rw [strLtB, if_neg hxy, if_pos hyx] at hab; exact absurd hab (by simp)
          · by_cases hyz : y.toNat < z.toNat
            · simp [strLtB, show x.toNat < z.toNat by omega]
            · by_cases hzy : z.toNat < y.toNat
              · rw [strLtB, if_neg hyz, if_pos hzy] at hbc; exact absurd hbc (by simp)
              · rw [strLtB, if_neg hxy, if_neg hyx] at hab
                rw [strLtB, if_neg hyz, if_neg hzy] at hbc
                rw [strLtB, if_neg (show ¬x.toNat < z.toNat by omega),
                    if_neg (show ¬z.toNat < x.toNat by omega)]
                exact ih hab hbc

theorem strLtB_eq_of_not_lt : ∀ {a b : List Char},
    strLtB a b = false → strLtB b a = false → a = b := by
  intro a
  induction a with
  | nil =>
    intro b hab _
    cases b with
    | nil => rfl
    | cons y ys => exact absurd hab (by simp [strLtB])
  | cons x xs ih =>
    intro b hab hba
    cases b with
    | nil => exact absurd hba (by simp [strLtB])
    | cons y ys =>
      by_cases hxy : x.toNat < y.toNat
      · rw [strLtB, if_pos hxy] at hab; exact absurd hab (by simp)
      · by_cases hyx : y.toNat < x.toNat
        · rw [strLtB, if_pos hyx] at hba; exact absurd hba (by simp)
        · rw [strLtB, if_neg hxy, if_neg hyx] at hab
          rw [strLtB, if_neg hyx, if_neg hxy] at hba
          have hn : x.toNat = y.toNat := by omega
          have hxey : x = y := Char.ext_iff.mpr (UInt32.ext_iff.mpr hn)
          rw [hxey, ih hab hba]

theorem entryLe_iff {a b : InitEntry} :
    entryLe a b = true ↔
      (a.val < b.val ∨ (a.val = b.val ∧ (strLtB a.symbol.data b.symbol.data = true ∨
        (a.symbol = b.symbol ∧
          (a.offset < b.offset ∨ (a.offset = b.offset ∧ a.lineNo ≤ b.lineNo)))))) := by
  simp [entryLe]

theorem entryLe_total : ∀ a b : InitEntry, entryLeR a b ∨ entryLeR b a := by
  intro a b
  unfold entryLeR
  rw [entryLe_iff, entryLe_iff]
  rcases lt_trichotomy a.val b.val with h | h | h
  · exact Or.inl (Or.inl h)
  · by_cases h2 : strLtB a.symbol.data b.symbol.data = true
    · exact Or.inl (Or.inr ⟨h, Or.inl h2⟩)
    · by_cases h2' : strLtB b.symbol.data a.symbol.data = true
      · exact Or.inr (Or.inr ⟨h.symm, Or.inl h2'⟩)
      · have hsy : a.symbol = b.symbol := by
          apply String.ext
          exact strLtB_eq_of_not_lt (by simpa using h2) (by simpa using h2')
        rcases lt_trichotomy a.offset b.offset with h3 | h3 | h3
        · exact Or.inl (Or.inr ⟨h, Or.inr ⟨hsy, Or.inl h3⟩⟩)
        · rcases le_total a.lineNo b.lineNo with h4 | h4
          · exact Or.inl (Or.inr ⟨h, Or.inr ⟨hsy, Or.inr ⟨h3, h4⟩⟩⟩)
          · exact Or.inr (Or.inr ⟨h.symm, Or.inr ⟨hsy.symm, Or.inr ⟨h3.symm, h4⟩⟩⟩)
        · exact Or.inr (Or.inr ⟨h.symm, Or.inr ⟨hsy.symm, Or.inl h3⟩⟩)
  · exact Or.inr (Or.inl h)

theorem entryLe_trans : ∀ a b c : InitEntry, entryLeR a b → entryLeR b c → entryLeR a c := by
  intro a b c hab hbc
  unfold entryLeR at hab hbc ⊢
  rw [entryLe_iff] at hab hbc ⊢
  rcases hab with h1 | ⟨e1, h1⟩
  · rcases hbc with h2 | ⟨e2, h2⟩
    · exact Or.inl (h1.trans h2)
    · exact Or.inl (h1.trans_eq e2)
  · rcases hbc with h2 | ⟨e2, h2⟩
    · exact Or.inl (e1.trans_lt h2)
    · refine Or.inr ⟨e1.trans e2, ?_⟩
      rcases h1 with s1 | ⟨f1, h1⟩
      · rcases h2 with s2 | ⟨f2, h2⟩
        · exact Or.inl (strLtB_trans s1 s2)
        · exact Or.inl (f2 ▸ s1)
      · rcases h2 with s2 | ⟨f2, h2⟩
        · exact Or.inl (f1 ▸ s2)
        · refine Or.inr ⟨f1.trans f2, ?_⟩
          rcases h1 with o1 | ⟨g1, h1⟩
          · rcases h2 with o2 | ⟨g2, h2⟩
            · exact Or.inl (o1.trans o2)
            · exact Or.inl (o1.trans_eq g2)
          · rcases h2 with o2 | ⟨g2, h2⟩
            · exact Or.inl (g1.trans_lt o2)
            · exact Or.inr ⟨g1.trans g2, h1.trans h2⟩

/-- The sorted entry list is ascending by value. -/
theorem initSort_sorted_by_val (l : List InitEntry) :
    (initSort l).Pairwise (fun a b => a.val ≤ b.val) := by
  have h := @List.sorted_insertionSort InitEntry entryLeR _ ⟨entryLe_total⟩ ⟨entryLe_trans⟩ l
  refine h.imp (fun hab => ?_)
  rw [entryLeR, entryLe_iff] at hab
  rcases hab with h1 | ⟨e1, _⟩
  · exact le_of_lt h1
  · exact le_of_eq e1

/-- A fresh `D` load is two instructions whether the value fits in 15
bits or needs the complement trick. -/
theorem initLoadOps_length (val ln : Int) : (initLoadOps val ln).length = 2 := by
  unfold initLoadOps
  by_cases h : val < 32768 <;> simp [h]

/-- C7: the synthesizer sorts the entries ascending by value, and the
walk behaves as claimed on the uint16 entry values: an entry equal to
the previous one is stored without re-issuing a load (2 instructions);
an entry exactly one greater than the previous emitted value, when the
previous value was none of the no-load special cases 0, 1 and 65535
(-1), is produced by the single increment `D=D+1` (3 instructions); any
other non-special value gets a fresh two-instruction load (4
instructions); and for initializer values `[5, 0, 1, 5, 6]` at distinct
locations the value 6 after 5 costs 3 synthesized instructions, strictly
fewer than the 4 a fresh unrelated value (9) costs — 13 instructions in
total against 14. -/
theorem c7_init_sort_and_adjacency :
    (∀ l : List InitEntry, (initSort l).Pairwise (fun a b => a.val ≤ b.val)) ∧
    (∀ (lastval : Int) (e : InitEntry) (rest : List InitEntry),
      e.val = lastval → ¬(e.val = 0 ∨ e.val = 1) → e.val ≠ 65535 →
      genInit lastval (e :: rest) =
        initStoreOps e.symbol e.offset e.lineNo ++ genInit e.val rest ∧
      (initStoreOps e.symbol e.offset e.lineNo).length = 2) ∧
    (∀ (lastval : Int) (e : InitEntry) (rest : List InitEntry),
      e.val = lastval + 1 → lastval ≠ 0 → lastval ≠ 1 → lastval ≠ 65535 →
      ¬(e.val = 0 ∨ e.val = 1) → e.val ≠ 65535 →
      genInit lastval (e :: rest) =
        initIncOp e.val e.lineNo :: (initStoreOps e.symbol e.offset e.lineNo ++ genInit e.val rest)) ∧
    (∀ (lastval : Int) (e : InitEntry) (rest : List InitEntry),
      e.val ≠ lastval → (e.val ≠ lastval + 1 ∨ e.val = 2) →
      ¬(e.val = 0 ∨ e.val = 1) → e.val ≠ 65535 →
      genInit lastval (e :: rest) =
        initLoadOps e.val e.lineNo ++ initStoreOps e.symbol e.offset e.lineNo ++ genInit e.val rest ∧
      (initLoadOps e.val e.lineNo).length = 2) ∧
    (initSort entries6 =
      [⟨0, "b", 0, 2⟩, ⟨1, "c", 0, 3⟩, ⟨5, "a", 0, 1⟩, ⟨5, "d", 0, 4⟩, ⟨6, "e", 0, 5⟩]) ∧
    (genInit (-1) (initSort entries6)).length = 13 ∧
    (genInit (-1) (initSort entries9)).length = 14 ∧
    (genInit 5 [⟨6, "e", 0, 5⟩]).length = 3 ∧
    (genInit 5 [⟨9, "e", 0, 5⟩]).length = 4 ∧ (3 : Nat) < 4 := by
  refine ⟨initSort_sorted_by_val, ?_, ?_, ?_, by decide, by decide, by decide, by decide,
    by decide, by decide⟩
  · intro lastval e rest heq hns h65
    have hne : ¬(e.val ≠ lastval) := by omega
    refine ⟨?_, rfl⟩
    rw [genInit, if_neg hns, if_neg h65, if_neg hne]
    simp
  · intro lastval e rest hadj h0 h1 h65l hns h65
    have hne : e.val ≠ lastval := by omega
    have h2 : e.val ≠ 2 := by omega
    rw [genInit, if_neg hns, if_neg h65, if_pos hne, if_pos ⟨hadj, h2⟩]
    simp
  · intro lastval e rest hne hnadj hns h65
    have hno : ¬(e.val = lastval + 1 ∧ e.val ≠ 2) := by tauto
    refine ⟨?_, initLoadOps_length e.val e.lineNo⟩
    rw [genInit, if_neg hns, if_neg h65, if_pos hne, if_neg hno]

/-- C7, witness: the three walk clauses at concrete entries — a repeat
of 5, the increment from 5 to 6, and a fresh load of 9 after 5. -/
theorem c7_init_sort_and_adjacency_witness :
    (genInit 5 [⟨5, "d", 0, 4⟩] = initStoreOps "d" 0 4 ++ genInit 5 []) ∧
    (genInit 5 [⟨6, "e", 0, 5⟩] =
      initIncOp 6 5 :: (initStoreOps "e" 0 5 ++ genInit 6 [])) ∧
    (genInit 5 [⟨9, "e", 0, 5⟩] =
      initLoadOps 9 5 ++ initStoreOps "e" 0 5 ++ genInit 9 []) :=
  ⟨(c7_init_sort_and_adjacency.2.1 5 ⟨5, "d", 0, 4⟩ [] rfl (by decide) (by decide)).1,
   c7_init_sort_and_adjacency.2.2.1 5 ⟨6, "e", 0, 5⟩ [] rfl (by decide) (by decide) (by decide)
     (by decide) (by decide),
   (c7_init_sort_and_adjacency.2.2.2.1 5 ⟨9, "e", 0, 5⟩ [] (by decide) (Or.inl (by decide))
     (by decide) (by decide)).1⟩

/-! ## C8 — RAM allocation determinism

Pass 2 binds each plain variable to the current RAM cursor and advances
the cursor by the declared size (lines 943-950); aliases bind directly
to the evaluated value at no RAM cost. -/

theorem symInsert_of_not_contains {m : SymTable} {k : String} (v : Int)
    (h : symContains m k = false) : symInsert m k v = m ++ [(k, v)] := by
  simp [symInsert, h]

theorem symLookup_append_right (m m' : SymTable) (k : String)
    (h : symContains m k = false) : symLookup (m ++ m') k = symLookup m' k := by
  induction m with
  | nil => rfl
  | cons p m ih =>
    simp only [symContains, List.any_cons, Bool.or_eq_false_iff] at h
    simp only [symLookup, List.cons_append, List.find?_cons, h.1]
    exact ih h.2

/-- One pass-2 step on a valid, fresh, plain variable declaration whose
size evaluates to `v`: bind the name to the RAM cursor and advance the
cursor by `v` (the over-capacity check only marks the operation, never
the state). -/
theorem pass2Step_vardecl (fuel : Nat) (st : Asm) (n e : String) (v : Int)
    (hne : n ≠ "") (hnc : is_constantL n.toList = false) (hval : is_symbol n = true)
    (hfresh : symContains st.symbols n = false)
    (hucase : st.ucaseSymbols.contains (upperStr n) = false)
    (hev : evaluateF st.symbols fuel e.toList false = .ok v) :
    (pass2Step fuel st (mkVarDecl n e)).2 =
      {st with symbols := symInsert st.symbols n st.ram,
               ram := st.ram + v,
               declaredVariables := st.declaredVariables ++ [n],
               ucaseSymbols := st.ucaseSymbols ++ [upperStr n]} := by
  have hnc' : is_constantL n.data = false := hnc
  have hev' : evaluateF st.symbols fuel e.data false = .ok v := hev
  have hnmem : upperStr n ∉ st.ucaseSymbols := by simpa using hucase
  unfold pass2Step mkVarDecl
  simp [hne, hnc', hval, hfresh, hnmem, hev, hev']

/-- One pass-2 step on a valid, fresh alias declaration: bind the name
directly to the evaluated value; the RAM cursor does not move. -/
theorem pass2Step_alias (fuel : Nat) (st : Asm) (n e : String) (v : Int)
    (hne : n ≠ "") (hnc : is_constantL n.toList = false) (hval : is_symbol n = true)
    (hfresh : symContains st.symbols n = false)
    (hucase : st.ucaseSymbols.contains (upperStr n) = false)
    (hev : evaluateF st.symbols fuel e.toList false = .ok v) :
    (pass2Step fuel st (mkAliasDecl n e)).2 =
      {st with symbols := symInsert st.symbols n v,
               declaredVariables := st.declaredVariables ++ [n],
               ucaseSymbols := st.ucaseSymbols ++ [upperStr n]} := by
  have hnc' : is_constantL n.data = false := hnc
  have hev' : evaluateF st.symbols fuel e.data false = .ok v := hev
  have hnmem : upperStr n ∉ st.ucaseSymbols := by simpa using hucase
  unfold pass2Step mkAliasDecl
  simp [hne, hnc', hval, hfresh, hnmem, hev, hev']

theorem symContains_append_single (m : SymTable) (k x : String) (v : Int) :
    symContains (m ++ [(k, v)]) x = (symContains m x || (k == x)) := by
  simp [symContains, List.any_append]

theorem runPass_cons (step : Asm → Op → Op × Asm) (o : Op) (rest : List Op) (st : Asm) :
    runPass step (o :: rest) st =
      ((step st o).1 :: (runPass step rest (step st o).2).1,
       (runPass step rest (step st o).2).2) := rfl

/-- Pass 2 over a run of plain variable declarations appends exactly the
cursor-allocated bindings and advances the cursor by the total size. -/
theorem pass2_vardecls (fuel : Nat) (decls : List (String × String × Int)) (st : Asm)
    (hvalid : ∀ d ∈ decls, d.1 ≠ "" ∧ is_constantL d.1.toList = false ∧ is_symbol d.1 = true)
    (hfresh : ∀ d ∈ decls, symContains st.symbols d.1 = false)
    (hucase : ∀ d ∈ decls, st.ucaseSymbols.contains (upperStr d.1) = false)
    (hdist : (decls.map (·.1)).Pairwise (fun a b => a ≠ b ∧ upperStr a ≠ upperStr b))
    (heval : ∀ d ∈ decls, ∀ tbl : SymTable, evaluateF tbl fuel d.2.1.toList false = .ok d.2.2) :
    (pass2 fuel (decls.map (fun d => mkVarDecl d.1 d.2.1)) st).2.symbols =
        st.symbols ++ allocSyms st.ram decls ∧
    (pass2 fuel (decls.map (fun d => mkVarDecl d.1 d.2.1)) st).2.ram =
        st.ram + sizesSum decls := by
  induction decls generalizing st with
  | nil => simp [pass2, runPass, allocSyms, sizesSum]
  | cons d ds ih =>
    obtain ⟨hv1, hv2, hv3⟩ := hvalid d (by simp)
    have hpair :=
      List.pairwise_cons.mp (show List.Pairwise _ (d.1 :: ds.map (·.1)) from hdist)
    have hins : symInsert st.symbols d.1 st.ram = st.symbols ++ [(d.1, st.ram)] :=
      symInsert_of_not_contains st.ram (hfresh d (by simp))
    have hstep := pass2Step_vardecl fuel st d.1 d.2.1 d.2.2 hv1 hv2 hv3
      (hfresh d (by simp)) (hucase d (by simp)) (heval d (by simp) st.symbols)
    rw [hins] at hstep
    set st1 : Asm :=
      {st with symbols := st.symbols ++ [(d.1, st.ram)],
               ram := st.ram + d.2.2,
               declaredVariables := st.declaredVariables ++ [d.1],
               ucaseSymbols := st.ucaseSymbols ++ [upperStr d.1]} with hst1
    have htail := ih st1
      (fun x hx => hvalid x (List.mem_cons_of_mem d hx))
      (fun x hx => by
        have h1 : symContains st.symbols x.1 = false := hfresh x (List.mem_cons_of_mem d hx)
        have h2 : d.1 ≠ x.1 := (hpair.1 x.1 (List.mem_map_of_mem (·.1) hx)).1
        show symContains (st.symbols ++ [(d.1, st.ram)]) x.1 = false
        rw [symContains_append_single]
        simp [h1, h2])
      (fun x hx => by
        have h1 : upperStr x.1 ∉ st.ucaseSymbols := by
          simpa using hucase x (List.mem_cons_of_mem d hx)
        have h2 : upperStr d.1 ≠ upperStr x.1 := (hpair.1 x.1 (List.mem_map_of_mem (·.1) hx)).2
        show (st.ucaseSymbols ++ [upperStr d.1]).contains (upperStr x.1) = false
        simp [h1]
        exact fun hc => h2 hc.symm)
      hpair.2
      (fun x hx tbl => heval x (List.mem_cons_of_mem d hx) tbl)
    have hcons : pass2 fuel ((d :: ds).map (fun x => mkVarDecl x.1 x.2.1)) st =
        ((pass2Step fuel st (mkVarDecl d.1 d.2.1)).1 ::
           (pass2 fuel (ds.map (fun x => mkVarDecl x.1 x.2.1))
             (pass2Step fuel st (mkVarDecl d.1 d.2.1)).2).1,
         (pass2 fuel (ds.map (fun x => mkVarDecl x.1 x.2.1))
           (pass2Step fuel st (mkVarDecl d.1 d.2.1)).2).2) := by
      rw [List.map_cons]
      exact runPass_cons _ _ _ _
    constructor
    · rw [hcons]
      show (pass2 fuel (ds.map (fun x => mkVarDecl x.1 x.2.1))
        (pass2Step fuel st (mkVarDecl d.1 d.2.1)).2).2.symbols = _
      rw [hstep, htail.1]
      show st.symbols ++ [(d.1, st.ram)] ++ allocSyms (st.ram + d.2.2) ds = _
      rw [allocSyms, List.append_assoc]
      rfl
    · rw [hcons]
      show (pass2 fuel (ds.map (fun x => mkVarDecl x.1 x.2.1))
        (pass2Step fuel st (mkVarDecl d.1 d.2.1)).2).2.ram = _
      rw [hstep, htail.2]
      show st.ram + d.2.2 + sizesSum ds = _
      rw [sizesSum]
      ring

/-- Looking up the `i`-th declared name in the allocation list gives the
base address `r + ` the sum of the earlier sizes. -/
theorem allocSyms_lookup (decls : List (String × String × Int)) (r : Int) (i : Nat)
    (h : i < decls.length)
    (hdist : (decls.map (·.1)).Pairwise (fun a b => a ≠ b)) :
    symLookup (allocSyms r decls) (decls.get ⟨i, h⟩).1 =
      some (r + sizesSum (decls.take i)) := by
  induction decls generalizing r i with
  | nil => simp at h
  | cons d ds ih =>
    have hpair :=
      List.pairwise_cons.mp (show List.Pairwise _ (d.1 :: ds.map (·.1)) from hdist)
    cases i with
    | zero => simp [allocSyms, symLookup, sizesSum]
    | succ j =>
      have hj : j < ds.length := by simpa using h
      have hne : d.1 ≠ (ds.get ⟨j, hj⟩).1 :=
        hpair.1 (ds.get ⟨j, hj⟩).1 (List.mem_map_of_mem (·.1) (ds.get_mem j hj))
      show symLookup ((d.1, r) :: allocSyms (r + d.2.2) ds) (ds.get ⟨j, hj⟩).1 = _
      rw [symLookup, List.find?_cons]
      rw [show ((d.1 == (ds.get ⟨j, hj⟩).1) = false) by simpa using hne]
      have hih := ih (r + d.2.2) j hj hpair.2
      rw [symLookup] at hih
      rw [hih]
      show some (r + d.2.2 + sizesSum (ds.take j)) = _
      rw [show sizesSum ((d :: ds).take (j + 1)) = d.2.2 + sizesSum (ds.take j) from rfl]
      rw [Int.add_assoc]

/-- C8: for a run of plain (non-alias) variable declarations with sizes
`s1..sn` and no naming failures, the `i`-th variable's base address is
the starting cursor (16 at the start of pass 2) plus the sum of the
earlier sizes, the cursor advancing by exactly each declared size; an
alias declaration binds its symbol to the evaluated alias-target value
and moves the cursor by zero. -/
theorem c8_ram_allocation (fuel : Nat) (decls : List (String × String × Int)) (st : Asm)
    (hvalid : ∀ d ∈ decls, d.1 ≠ "" ∧ is_constantL d.1.toList = false ∧ is_symbol d.1 = true)
    (hfresh : ∀ d ∈ decls, symContains st.symbols d.1 = false)
    (hucase : ∀ d ∈ decls, st.ucaseSymbols.contains (upperStr d.1) = false)
    (hdist : (decls.map (·.1)).Pairwise (fun a b => a ≠ b ∧ upperStr a ≠ upperStr b))
    (heval : ∀ d ∈ decls, ∀ tbl : SymTable, evaluateF tbl fuel d.2.1.toList false = .ok d.2.2) :
    (∀ (i : Nat) (h : i < decls.length),
      symLookup (pass2 fuel (decls.map (fun d => mkVarDecl d.1 d.2.1)) st).2.symbols
          (decls.get ⟨i, h⟩).1 =
        some (st.ram + sizesSum (decls.take i))) ∧
    (pass2 fuel (decls.map (fun d => mkVarDecl d.1 d.2.1)) st).2.ram =
        st.ram + sizesSum decls ∧
    (∀ (n e : String) (v : Int),
      n ≠ "" → is_constantL n.toList = false → is_symbol n = true →
      symContains st.symbols n = false →
      st.ucaseSymbols.contains (upperStr n) = false →
      evaluateF st.symbols fuel e.toList false = .ok v →
      (pass2Step fuel st (mkAliasDecl n e)).2.symbols = symInsert st.symbols n v ∧
      (pass2Step fuel st (mkAliasDecl n e)).2.ram = st.ram) := by
  have hmain := pass2_vardecls fuel decls st hvalid hfresh hucase hdist heval
  refine ⟨?_, hmain.2, ?_⟩
  · intro i h
    rw [hmain.1]
    rw [symLookup_append_right _ _ _ (hfresh _ (decls.get_mem i h))]
    exact allocSyms_lookup decls st.ram i h (hdist.imp (fun hab => hab.1))
  · intro n e v hne hnc hval hf hu hev
    have hst := pass2Step_alias fuel st n e v hne hnc hval hf hu hev
    rw [hst]
    exact ⟨rfl, rfl⟩

/-- C8, witness: declaring `va` of size 2 then `vb` of size 3 from the
initial state allocates `va` at 16 and `vb` at `16 + 2 = 18`, leaving
the cursor at 21; an alias `al@SCREEN+1` binds to 16385 and leaves the
cursor at 16. -/
theorem c8_ram_allocation_witness :
    symLookup (pass2 5 [mkVarDecl "va" "2", mkVarDecl "vb" "3"] {}).2.symbols "vb" =
      some 18 ∧
    (pass2 5 [mkVarDecl "va" "2", mkVarDecl "vb" "3"] {}).2.ram = 21 ∧
    (pass2Step 5 {} (mkAliasDecl "al" "SCREEN+1")).2.symbols =
      symInsert predefSymbols "al" 16385 ∧
    (pass2Step 5 {} (mkAliasDecl "al" "SCREEN+1")).2.ram = 16 := by
  have h := c8_ram_allocation 5 [("va", "2", 2), ("vb", "3", 3)] {}
    (by decide) (by decide) (by decide)
    (by simp [upperStr])
    (by
      intro d hd tbl
      simp only [List.mem_cons, List.mem_singleton] at hd
      rcases hd with rfl | rfl | h
      · rfl
      · rfl
      · simp at h)
  have ha := h.2.2 "al" "SCREEN+1" 16385 (by decide) (by decide) (by decide) rfl rfl rfl
  exact ⟨h.1 1 (by decide), h.2.1, ha.1, ha.2⟩

/-! ## C4 — the ROM-capacity check

The only comparison of `pc` against `MAXROM` in the source sits inside
the initialization branch (lines 1055-1062), guarded by
`if not errors and init_needed`: a compilation with no initializer
values is never checked against ROM capacity, no matter how large `pc`
grows. -/

theorem setLastError_shape (msg : String) : ∀ (p : Op) (q : List Op),
    ∃ h t, setLastError msg (p :: q) = h :: t
  | _, [] => ⟨_, _, rfl⟩
  | p, _ :: _ => ⟨p, _, rfl⟩

theorem getLast?_setLastError (msg : String) : ∀ (l : List Op),
    (setLastError msg l).getLast? = l.getLast?.map (fun o => {o with error := some msg}) := by
  intro l
  induction l with
  | nil => rfl
  | cons o rest ih =>
    cases rest with
    | nil => rfl
    | cons p q =>
      obtain ⟨h, t, hshape⟩ := setLastError_shape msg p q
      rw [show setLastError msg (o :: p :: q) = o :: setLastError msg (p :: q) from rfl,
          hshape, List.getLast?_cons_cons, ← hshape, ih, List.getLast?_cons_cons]

/-- Without initialization the phase is the identity: no ROM check. -/
theorem initPhase_not_needed (fuel : Nat) (ops : List Op) (st : Asm) :
    initPhase fuel false ops st = (ops, st.pc) := by
  simp [initPhase]

/-- The synthesized initializer body always ends with the two-operation
return jump, so it is never empty. -/
theorem initOpsOf_ne_nil (fuel : Nat) (tbl : SymTable) (ops : List Op) :
    initOpsOf fuel tbl ops ≠ [] := by
  unfold initOpsOf retOps
  intro h
  have := congrArg List.length h
  simp at this

/-- A step of every pass that leaves both the operation and the state
unchanged keeps a replicated list unchanged. -/
theorem runPass_id_replicate (step : Asm → Op → Op × Asm) (o : Op)
    (h : ∀ st, step st o = (o, st)) :
    ∀ (n : Nat) (st : Asm), runPass step (List.replicate n o) st = (List.replicate n o, st) := by
  intro n
  induction n with
  | zero => intro st; rfl
  | succ m ih =>
    intro st
    rw [List.replicate_succ, runPass_cons, h st, ih st]

theorem pass1_replicate_aConst :
    ∀ (n : Nat) (st : Asm),
      pass1 (List.replicate n aConstOp) st =
        (List.replicate n aConstOp, {st with pc := st.pc + n}) := by
  intro n
  induction n with
  | zero => intro st; simp [pass1, runPass]
  | succ m ih =>
    intro st
    rw [List.replicate_succ, pass1, runPass_cons,
        show pass1Step st aConstOp = (aConstOp, {st with pc := st.pc + 1}) from rfl]
    rw [show runPass pass1Step (List.replicate m aConstOp) {st with pc := st.pc + 1} =
        pass1 (List.replicate m aConstOp) {st with pc := st.pc + 1} from rfl, ih]
    have : st.pc + 1 + (m : Int) = st.pc + ((m : Int) + 1) := by ring
    simp [this]

theorem replicate_any_false {α : Type} (p : α → Bool) (a : α) (h : p a = false) :
    ∀ n : Nat, (List.replicate n a).any p = false := by
  intro n
  induction n with
  | zero => rfl
  | succ m ih => rw [List.replicate_succ, List.any_cons, h, ih]; rfl

theorem codegenAll_replicate_aConst (fuel : Nat) (tbl : SymTable) :
    ∀ n : Nat, codegenAll fuel tbl (List.replicate n aConstOp) =
      .ok (List.replicate n aConstOpC) := by
  intro n
  induction n with
  | zero => rfl
  | succ m ih =>
    rw [List.replicate_succ, codegenAll,
        show codegen fuel tbl aConstOp = .ok aConstOpC from rfl, ih, List.replicate_succ]
    rfl

/-- C4 counterexample: a program of 32768 `@0` instructions and no
declarations assembles with no error on any operation even though the
final `pc` equals `MAXROM`: no terminal error is reported. -/
theorem c4_no_rom_check_counterexample :
    assemble 5 (List.replicate 32768 aConstOp) =
      .ok ⟨List.replicate 32768 aConstOpC, 32768, 16, predefSymbols⟩ ∧
    (List.replicate 32768 aConstOpC).any (fun o => o.error.isSome) = false ∧
    (32768 : Int) ≥ MAXROM := by
  refine ⟨?_, replicate_any_false _ _ rfl 32768, by decide⟩
  have hdw : dunderWarn (List.replicate 32768 aConstOp) = List.replicate 32768 aConstOp := by
    rw [dunderWarn, List.map_replicate, show dunderStep aConstOp = aConstOp from rfl]
  have hinit : (List.replicate 32768 aConstOp).any (fun o => o.init.isSome) = false :=
    replicate_any_false _ _ rfl 32768
  have h1 := pass1_replicate_aConst 32768 ({} : Asm)
  have h2 := runPass_id_replicate (pass2Step 5) aConstOp (fun st => rfl) 32768
    ({({} : Asm) with pc := ({} : Asm).pc + (32768 : Nat)})
  have h3 := runPass_id_replicate pass3Step aConstOp (fun st => rfl) 32768
    ({({} : Asm) with pc := ({} : Asm).pc + (32768 : Nat)})
  have herr : hasErrorOps (List.replicate 32768 aConstOp) = false :=
    replicate_any_false _ _ rfl 32768
  rw [assemble, hdw, hinit]
  simp only [Bool.false_eq_true, if_false]
  rw [show pass1 (List.replicate 32768 aConstOp) {} =
      (List.replicate 32768 aConstOp, {({} : Asm) with pc := ({} : Asm).pc + (32768 : Nat)})
    from h1]
  rw [show pass2 5 (List.replicate 32768 aConstOp)
        ({({} : Asm) with pc := ({} : Asm).pc + (32768 : Nat)}) =
      (List.replicate 32768 aConstOp, ({({} : Asm) with pc := ({} : Asm).pc + (32768 : Nat)}))
    from h2]
  rw [show pass3 (List.replicate 32768 aConstOp)
        ({({} : Asm) with pc := ({} : Asm).pc + (32768 : Nat)}) =
      (List.replicate 32768 aConstOp, ({({} : Asm) with pc := ({} : Asm).pc + (32768 : Nat)}))
    from h3]
  rw [initPhase_not_needed, herr]
  simp only [Bool.false_eq_true, if_false]
  rw [codegenAll_replicate_aConst]
  rfl

/-- C4 amended: the ROM-capacity comparison happens only as part of
initialization synthesis.  When synthesis does not run the phase is the
identity and `pc` is never compared against `MAXROM`; when it runs on an
error-free program and the advanced `pc` reaches or exceeds `MAXROM`,
the error `Program too large!` is attached to the last synthesized
operation. -/
theorem c4_rom_check_amended :
    (∀ (fuel : Nat) (ops : List Op) (st : Asm), initPhase fuel false ops st = (ops, st.pc)) ∧
    (∀ (fuel : Nat) (ops : List Op) (st : Asm),
      hasErrorOps ops = false →
      st.pc + (initOpsOf fuel st.symbols ops).length ≥ MAXROM →
      (initPhase fuel true ops st).2 = st.pc + (initOpsOf fuel st.symbols ops).length ∧
      ((initPhase fuel true ops st).1.getLast?).map (fun o => o.error) =
        some (some "Program too large!")) := by
  refine ⟨initPhase_not_needed, ?_⟩
  intro fuel ops st herr hcap
  unfold initPhase
  rw [herr]
  simp only [Bool.not_false, Bool.true_and, if_true]
  refine ⟨trivial, ?_⟩
  rw [if_pos hcap, getLast?_setLastError]
  have hne : ops ++ initOpsOf fuel st.symbols ops ≠ [] := by
    intro h
    rcases List.append_eq_nil.mp h with ⟨_, h2⟩
    exact initOpsOf_ne_nil fuel st.symbols ops h2
  obtain ⟨x, hx⟩ := Option.ne_none_iff_exists'.mp
    (mt List.getLast?_eq_none_iff.mp hne)
  rw [hx]
  rfl

/-- C4 amended, witness: one `$x=7` declaration with the program counter
already at 32767 — the six synthesized instructions push `pc` to 32773,
past `MAXROM`, and the last synthesized operation carries the error. -/
theorem c4_rom_check_amended_witness :
    (initPhase 5 true [initDeclOp] {pc := 32767}).2 = 32773 ∧
    ((initPhase 5 true [initDeclOp] {pc := 32767}).1.getLast?).map (fun o => o.error) =
      some (some "Program too large!") := by
  have h := c4_rom_check_amended.2 5 [initDeclOp] {pc := 32767} rfl (by decide)
  exact ⟨h.1, h.2⟩

end Assembler
